import Mathlib

/-!
# CPU accounting collector (`collector/cpu_dragonfly.go`)

A shallow embedding of the C helper `getCPUTimes` and of the Go method
`statCollector.Update`, followed by the properties proved about them.

Conventions of the embedding:

* a Go or C string is the list of its characters, one byte each: the text the
  code writes is made of digits and spaces;
* the three kernel reads are the three fields of `Kernel`, `none` standing for
  a `sysctl` call that returned non-zero;
* the memory `malloc` hands to `getCPUTimes` is the argument `mem`: the bytes
  found from the returned address onward, whatever an earlier use left there.
  `bzero`, `strlen` and `sprintf` act on it as in C, and the result of
  `getCPUTimes` records whether every access stayed inside the allocation;
* `((double) c) / freq` is computed as the hardware does: both operands
  rounded to a 53-bit significand, the quotient rounded again, ties to even;
* the conversion to `uint64_t` of a quotient that is infinite, not a number,
  negative or too large, which C leaves open, is the argument `und`;
* the output channel is the list of the metrics sent so far, a send appends;
* `strconv.ParseFloat` belongs to the Go library, not to this package: `Update`
  takes it as the argument `pf`, `none` standing for a non-nil error. What a
  statement needs to know of it is a hypothesis of that statement
  (`AcceptsDecimals`, `ExactDecimals`); `parseDigits` is one such parser;
* a `float64` value is the rational number it denotes.
-/

namespace Collector

/-! ## The C side -/

/-- The five accumulators of `struct kinfo_cputime` that `getCPUTimes` reads,
each a `uint64_t` tick counter. -/
structure kinfo_cputime where
  cp_user : Nat
  cp_nice : Nat
  cp_sys : Nat
  cp_intr : Nat
  cp_idle : Nat
deriving DecidableEq, Repr

/-- What the kernel answers to the three reads of `getCPUTimes`:
`sysctl(CTL_HW, HW_NCPU)`, `sysctlbyname("kern.cputimer.freq")` and
`sysctlbyname("kern.cputime")`. A field is `none` when that call fails. -/
structure Kernel where
  hw_ncpu : Option Nat
  cputimer_freq : Option Int
  cputime : Option (List kinfo_cputime)
deriving DecidableEq, Repr

/-- Result of `bzero(cp_t, ...)`: an entry the kernel did not fill. -/
def kinfo_zero : kinfo_cputime := ⟨0, 0, 0, 0, 0⟩

/-- Entry `cp_t[i]` after the read: what the kernel stored, zero where it stored nothing. -/
def cp_t (cp : List kinfo_cputime) (i : Nat) : kinfo_cputime := cp.getD i kinfo_zero

/-- Number of binary digits of `n`, with `fuel` turns of halving. -/
def bitLenAux : Nat → Nat → Nat
  | 0, _ => 0
  | fuel + 1, n => if n = 0 then 0 else bitLenAux fuel (n / 2) + 1

/-- Number of binary digits of `n`: 0 for 0, otherwise the `L` with `2 ^ (L - 1) ≤ n < 2 ^ L`. -/
def bitLen (n : Nat) : Nat := bitLenAux n n

/-- The fraction `n / d` rounded to the nearest whole number, a tie going to the even one. -/
def roundHalfEven (n d : Nat) : Nat :=
  if d < 2 * (n % d) then n / d + 1
  else if 2 * (n % d) = d ∧ (n / d) % 2 = 1 then n / d + 1
  else n / d

/-- Value of `(double) n` for a whole number `n ≥ 0`: `n` rounded to a 53-bit
significand, ties to even. The result is again a whole number. -/
def toDouble (n : Nat) : Nat :=
  roundHalfEven n (2 ^ (bitLen n - 53)) * 2 ^ (bitLen n - 53)

/-- Whole part of the double `a / b`, for doubles `a ≥ 0` and `b > 0` that are
whole numbers: the exact quotient is rounded to a 53-bit significand, ties to
even, and the fraction is dropped. With `L` the number of binary digits of the
whole part of the exact quotient, the significand is the quotient scaled by
`2 ^ (53 - L)`. A quotient below 1 rounds to a double below 1, whole part 0,
unless it is at least `1 - 2 ^ (-54)`, which rounds to 1. -/
def divTrunc (a b : Nat) : Nat :=
  if a / b = 0 then (if (2 ^ 54 - 1) * b ≤ 2 ^ 54 * a then 1 else 0)
  else if bitLen (a / b) ≤ 53 then
    roundHalfEven (a * 2 ^ (53 - bitLen (a / b))) b / 2 ^ (53 - bitLen (a / b))
  else
    roundHalfEven a (b * 2 ^ (bitLen (a / b) - 53)) * 2 ^ (bitLen (a / b) - 53)

/-- Value of `uint64_t x = ((double) c) / freq;`. For a positive frequency whose
quotient is below `2 ^ 64` the conversion to `uint64_t` drops the fraction of
the double quotient. Otherwise (the quotient is too large, infinite, not a
number or negative) C does not say what the conversion yields: `und c freq`
stands for the 64-bit value the platform produces there. -/
def ticksToSeconds (und : Nat → Int → Nat) (c : Nat) (freq : Int) : Nat :=
  if 0 < freq ∧ divTrunc (toDouble c) (toDouble freq.toNat) < 2 ^ 64 then
    divTrunc (toDouble c) (toDouble freq.toNat)
  else und c freq % 2 ^ 64

/-- Output of the conversion `%llu`: the decimal digits of the value. -/
def fmtLLU (n : Nat) : List Char := Nat.toDigits 10 n

/-- Text that one `sprintf(..., "%llu %llu %llu %llu %llu ", user, nice, sys, intr, idle)`
writes for one core. -/
def sprintfLine (und : Nat → Int → Nat) (freq : Int) (e : kinfo_cputime) : List Char :=
  fmtLLU (ticksToSeconds und e.cp_user freq) ++ ' ' ::
  (fmtLLU (ticksToSeconds und e.cp_nice freq) ++ ' ' ::
  (fmtLLU (ticksToSeconds und e.cp_sys freq) ++ ' ' ::
  (fmtLLU (ticksToSeconds und e.cp_intr freq) ++ ' ' ::
  (fmtLLU (ticksToSeconds und e.cp_idle freq) ++ [' ']))))

/-- Size in bytes of the buffer `getCPUTimes` allocates:
`(sizeof(uint64_t)+sizeof(char))*(5*ncpu)`. -/
def cputime_size (ncpu : Nat) : Nat := (8 + 1) * (5 * ncpu)

/-- The byte that ends a C string. -/
def NUL : Char := Char.ofNat 0

/-- Memory after `bzero(p, n)`: the first `n` bytes are zero, the rest is as before. -/
def bzero (mem : List Char) (n : Nat) : List Char :=
  List.replicate n NUL ++ mem.drop n

/-- The C string that starts at the beginning of `mem`: the bytes before the first NUL. -/
def cString (mem : List Char) : List Char := mem.takeWhile (fun x => x != NUL)

/-- Value of `strlen(p)`. -/
def strlen (mem : List Char) : Nat := (cString mem).length

/-- Memory after `sprintf(p + off, ...)` has written `text` and its NUL at
offset `off`. Bytes written past the end of an allocation land in the memory
that follows it. -/
def sprintfAt (mem : List Char) (off : Nat) (text : List Char) : List Char :=
  mem.take off ++ text ++ NUL :: mem.drop (off + text.length + 1)

/-- What a call of `getCPUTimes` leaves: its return value, the C string at the
address it stored in `*cputime` (`none`: it stored none), and whether the run
stayed in bounds: the size fits the `int` it is kept in, every byte written
and the NUL that ends the string lie inside the allocated bytes. -/
structure CResult where
  rc : Int
  cputime : Option (List Char)
  inBounds : Bool
deriving DecidableEq, Repr

/-- One turn of the `for` loop of `getCPUTimes` on the memory at `*cputime`:
the line of core `i` is written at `strlen(*cputime)`. The second component
stays `true` as long as the bytes written lie inside the `size` bytes
allocated. -/
def getCPUTimes.step (und : Nat → Int → Nat) (freq : Int) (cp : List kinfo_cputime)
    (size : Nat) (s : List Char × Bool) (i : Nat) : List Char × Bool :=
  (sprintfAt s.1 (strlen s.1) (sprintfLine und freq (cp_t cp i)),
   s.2 && decide (strlen s.1 + (sprintfLine und freq (cp_t cp i)).length + 1 ≤ size))

/-- The C function `getCPUTimes`, called when the memory at the address
`malloc` is about to return holds `mem`. Each failing read returns `-1` before
anything is allocated. Otherwise `cputime_size ncpu` bytes are allocated and
zeroed, each turn of the loop writes one line at the end of the string so far,
and 0 is returned. With no core nothing is allocated or written, and the
string at the address is what the memory held before: it is read outside
the allocation, so that run is not in bounds. -/
def getCPUTimes (und : Nat → Int → Nat) (mem : List Char) (k : Kernel) : CResult :=
  match k.hw_ncpu with
  | none => ⟨-1, none, true⟩
  | some ncpu =>
    match k.cputimer_freq with
    | none => ⟨-1, none, true⟩
    | some freq =>
      match k.cputime with
      | none => ⟨-1, none, true⟩
      | some cp =>
        let r := (List.range ncpu).foldl (getCPUTimes.step und freq cp (cputime_size ncpu))
          (bzero mem (cputime_size ncpu), decide (cputime_size ncpu < 2 ^ 31))
        ⟨0, some (cString r.1), r.2 && decide (strlen r.1 < cputime_size ncpu)⟩

/-! ## The Go side -/

/-- A `prometheus.Desc`: fully qualified name, help text and label names. -/
structure Desc where
  fqName : String
  help : String
  variableLabels : List String
deriving DecidableEq, Repr

/-- The `prometheus.ValueType` constants. -/
inductive ValueType where
  | CounterValue
  | GaugeValue
  | UntypedValue
deriving DecidableEq, Repr

/-- A constant metric as `prometheus.MustNewConstMetric` builds it. -/
structure Metric where
  desc : Desc
  valueType : ValueType
  value : ℚ
  labelValues : List String
deriving DecidableEq

/-- A Go `error` value of this collector: one made by `errors.New`, or the
error `strconv.ParseFloat` returned for the token `num`. -/
inductive GoError where
  | New (text : String)
  | NumError (num : List Char)
deriving DecidableEq, Repr

/-- The collector: its only field is the metric descriptor. -/
structure statCollector where
  cpu : Desc
deriving DecidableEq, Repr

/-- The function `prometheus.BuildFQName`. -/
def BuildFQName (namespace_ subsystem name : String) : String :=
  if name = "" then ""
  else if namespace_ ≠ "" ∧ subsystem ≠ "" then namespace_ ++ "_" ++ subsystem ++ "_" ++ name
  else if namespace_ ≠ "" then namespace_ ++ "_" ++ name
  else if subsystem ≠ "" then subsystem ++ "_" ++ name
  else name

/-- The constructor `NewStatCollector`; `Namespace` is the package constant of that name. -/
def NewStatCollector (Namespace : String) : statCollector :=
  { cpu := { fqName := BuildFQName Namespace "" "cpu"
             help := "Seconds the cpus spent in each mode."
             variableLabels := ["cpu", "mode"] } }

/-- The function `prometheus.MustNewConstMetric` at the two label values `Update` passes. -/
def MustNewConstMetric (d : Desc) (t : ValueType) (value : ℚ) (labelValues : List String) :
    Metric :=
  ⟨d, t, value, labelValues⟩

/-- The predicate `unicode.IsSpace`, which `strings.TrimSpace` trims by. -/
def isSpace (c : Char) : Bool :=
  let n := c.toNat
  (9 ≤ n && n ≤ 13) || n = 0x20 || n = 0x85 || n = 0xA0 || n = 0x1680 ||
  (0x2000 ≤ n && n ≤ 0x200A) || n = 0x2028 || n = 0x2029 || n = 0x202F ||
  n = 0x205F || n = 0x3000

/-- The function `strings.TrimSpace`. -/
def TrimSpace (s : List Char) : List Char :=
  (s.dropWhile isSpace).rdropWhile isSpace

/-- The function `strings.Split(s, sep)` for a separator of one character: the
pieces between the separators, one more than there are separators. -/
def Split (s : List Char) (sep : Char) : List (List Char) :=
  match s with
  | [] => [[]]
  | c :: cs =>
    if c = sep then [] :: Split cs sep
    else
      match Split cs sep with
      | [] => [[c]]
      | t :: ts => (c :: t) :: ts

/-- The function `C.GoString`: the empty string for a null pointer. -/
def GoString (p : Option (List Char)) : List Char := p.getD []

/-- Number of states per core, `fieldsCount` in `Update`. -/
def fieldsCount : Nat := 5

/-- Export order of the modes, `cpuFields` in `Update`. -/
def cpuFields : List String := ["user", "nice", "sys", "interrupt", "idle"]

/-- Result of `fmt.Sprintf("cpu%d", n)`. -/
def cpux (n : Nat) : String := "cpu" ++ toString n

/-- The metric `Update` sends for the token at index `i` once it has parsed to
`value`. The index `i % fieldsCount` is below the length of `cpuFields`, so the
default of `getD` is never taken. -/
def sample (c : statCollector) (i : Nat) (value : ℚ) : Metric :=
  MustNewConstMetric c.cpu ValueType.CounterValue value
    [cpux (i / fieldsCount), cpuFields.getD (i % fieldsCount) ""]

/-- The loop `for i, v := range cpuTimes` of `Update`, from index `i` on: the
channel contents when the loop ends, and the error it returned if any. -/
def Update.loop (pf : List Char → Option ℚ) (c : statCollector) :
    Nat → List (List Char) → List Metric → List Metric × Option GoError
  | _, [], ch => (ch, none)
  | i, v :: vs, ch =>
    match pf v with
    | none => (ch, some (GoError.NumError v))
    | some value => Update.loop pf c (i + 1) vs (ch ++ [sample c i value])

/-- What one call of `Update` leaves behind: the collector, the channel
contents and the returned error (`none` for `nil`). -/
structure Outcome where
  collector : statCollector
  ch : List Metric
  err : Option GoError
deriving DecidableEq

/-- The statements of `Update` that follow the call of `getCPUTimes` when it
did not return `-1`, on the string at `cpuTimesC`. -/
def Update.decode (pf : List Char → Option ℚ) (c : statCollector)
    (cpuTimesC : Option (List Char)) (ch : List Metric) : Outcome :=
  let cpuTimes := Split (TrimSpace (GoString cpuTimesC)) ' '
  let r := Update.loop pf c 0 cpuTimes ch
  ⟨c, r.1, r.2⟩

/-- The method `statCollector.Update`, called when the kernel state is `k` and
the memory `malloc` will hand to `getCPUTimes` holds `mem`. -/
def Update (pf : List Char → Option ℚ) (und : Nat → Int → Nat) (mem : List Char)
    (c : statCollector) (k : Kernel) (ch : List Metric) : Outcome :=
  let r := getCPUTimes und mem k
  if r.1 = -1 then ⟨c, ch, some (GoError.New "could not retrieve CPU times")⟩
  else Update.decode pf c r.2 ch

/-- A parser that agrees with `strconv.ParseFloat` on unsigned decimal
integers and rejects every other token. It serves for concrete evaluations. -/
def parseDigits (s : List Char) : Option ℚ :=
  if s ≠ [] ∧ s.all Char.isDigit = true then
    some ((s.foldl (fun a d => 10 * a + (d.toNat - 48)) 0 : Nat) : ℚ)
  else none

/-- First fact about `strconv.ParseFloat` the proofs rely on: it returns no
error for the decimal digits of a 64-bit unsigned number. -/
def AcceptsDecimals (pf : List Char → Option ℚ) : Prop :=
  ∀ n : Nat, n < 2 ^ 64 → ∃ v, pf (fmtLLU n) = some v

/-- Second fact about `strconv.ParseFloat` the proofs rely on: a whole number
below `2 ^ 53`, which a `float64` represents exactly, parses to itself. -/
def ExactDecimals (pf : List Char → Option ℚ) : Prop :=
  ∀ n : Nat, n < 2 ^ 53 → pf (fmtLLU n) = some (n : ℚ)

/-- The value the parser returns for the decimal digits of `n`. -/
def parsed (pf : List Char → Option ℚ) (n : Nat) : ℚ := (pf (fmtLLU n)).getD 0

/-- The two-core kernel state of the concrete scenario. -/
def scenario : Kernel :=
  { hw_ncpu := some 2
    cputimer_freq := some 100
    cputime := some [⟨500, 0, 200, 10, 9300⟩, ⟨400, 0, 150, 5, 9445⟩] }

/-- A kernel state whose three reads succeed and report no core. -/
def zeroCpuKernel : Kernel :=
  { hw_ncpu := some 0, cputimer_freq := some 100, cputime := some [] }

/-- A one-core kernel state whose three reads succeed, the frequency read being 0. -/
def zeroFreqKernel : Kernel :=
  { hw_ncpu := some 1, cputimer_freq := some 0, cputime := some [⟨500, 0, 200, 10, 9300⟩] }

/-- A one-core kernel state with frequency 1 and every counter at 1000000000 ticks. -/
def wideKernel : Kernel :=
  { hw_ncpu := some 1
    cputimer_freq := some 1
    cputime := some [⟨1000000000, 1000000000, 1000000000, 1000000000, 1000000000⟩] }

/-- A two-core kernel state with frequency 100 and every counter at 1000000000000 ticks. -/
def longKernel : Kernel :=
  { hw_ncpu := some 2
    cputimer_freq := some 100
    cputime := some [⟨1000000000000, 1000000000000, 1000000000000, 1000000000000,
                      1000000000000⟩,
                     ⟨1000000000000, 1000000000000, 1000000000000, 1000000000000,
                      1000000000000⟩] }

/-- A one-core kernel state with frequency 1000 and every counter at
4000000000000 ticks, a number below `2 ^ 53`. -/
def exactLongKernel : Kernel :=
  { hw_ncpu := some 1
    cputimer_freq := some 1000
    cputime := some [⟨4000000000000, 4000000000000, 4000000000000,
                      4000000000000, 4000000000000⟩] }

/-! ## Vocabulary of the statements -/

/-- The text made of the given tokens, each followed by one space. -/
def spaced : List (List Char) → List Char
  | [] => []
  | t :: ts => t ++ ' ' :: spaced ts

/-- A token of the wire text: not empty and free of white space. -/
def IsToken (t : List Char) : Prop := t ≠ [] ∧ ∀ x ∈ t, isSpace x = false

/-- Counter of `e` for the state of index `s` in the export order
user, nice, sys, intr, idle. -/
def counter (e : kinfo_cputime) (s : Nat) : Nat :=
  match s with
  | 0 => e.cp_user
  | 1 => e.cp_nice
  | 2 => e.cp_sys
  | 3 => e.cp_intr
  | _ => e.cp_idle

/-- The five numbers `getCPUTimes` prints for one core, in the order printed. -/
def lineValues (und : Nat → Int → Nat) (freq : Int) (e : kinfo_cputime) : List Nat :=
  [ticksToSeconds und e.cp_user freq, ticksToSeconds und e.cp_nice freq,
   ticksToSeconds und e.cp_sys freq, ticksToSeconds und e.cp_intr freq,
   ticksToSeconds und e.cp_idle freq]

/-- The numbers `getCPUTimes` prints for the first `ncpu` cores, in the order printed. -/
def frame (und : Nat → Int → Nat) (freq : Int) (cp : List kinfo_cputime) : Nat → List Nat
  | 0 => []
  | n + 1 => frame und freq cp n ++ lineValues und freq (cp_t cp n)

/-- The metrics for the values `vals` read at the token indices `i`, `i + 1`, ... -/
def samplesFrom (c : statCollector) : Nat → List ℚ → List Metric
  | _, [] => []
  | i, v :: vs => sample c i v :: samplesFrom c (i + 1) vs

/-! ## Double arithmetic -/

theorem bitLenAux_lower : ∀ (fuel n : Nat), n ≠ 0 → 2 ^ (bitLenAux fuel n - 1) ≤ n := by
  intro fuel
  induction fuel with
  | zero => intro n hn; simp [bitLenAux]; omega
  | succ f ih =>
    intro n hn
    simp only [bitLenAux, hn, if_false, Nat.add_sub_cancel]
    by_cases h2 : n / 2 = 0
    · have : bitLenAux f (n / 2) = 0 := by
        rw [h2]; cases f <;> simp [bitLenAux]
      rw [this]; simp; omega
    · have h := ih (n / 2) h2
      cases hL : bitLenAux f (n / 2) with
      | zero => simp; omega
      | succ L =>
        rw [hL] at h
        simp only [Nat.add_sub_cancel] at h
        rw [Nat.pow_succ]
        omega

theorem bitLenAux_upper : ∀ (fuel n : Nat), n ≤ fuel → n < 2 ^ bitLenAux fuel n := by
  intro fuel
  induction fuel with
  | zero => intro n hn; simp [bitLenAux]; omega
  | succ f ih =>
    intro n hn
    by_cases h0 : n = 0
    · simp [bitLenAux, h0]
    · simp only [bitLenAux, h0, if_false]
      have h := ih (n / 2) (by omega)
      rw [Nat.pow_succ]
      omega

theorem bitLen_lower (n : Nat) (hn : n ≠ 0) : 2 ^ (bitLen n - 1) ≤ n :=
  bitLenAux_lower n n hn

theorem bitLen_upper (n : Nat) : n < 2 ^ bitLen n := bitLenAux_upper n n (Nat.le_refl n)

theorem bitLen_le_53 (n : Nat) (hn : n < 2 ^ 53) : bitLen n ≤ 53 := by
  by_contra h
  have h0 : n ≠ 0 := by
    intro h0
    rw [h0] at h
    exact h (by decide)
  have h1 := bitLen_lower n h0
  have h2 : 2 ^ 53 ≤ 2 ^ (bitLen n - 1) := Nat.pow_le_pow_right (by decide) (by omega)
  omega

theorem roundHalfEven_one (n : Nat) : roundHalfEven n 1 = n := by
  simp [roundHalfEven, Nat.mod_one]

theorem toDouble_exact (n : Nat) (hn : n < 2 ^ 53) : toDouble n = n := by
  have h : bitLen n - 53 = 0 := by have := bitLen_le_53 n hn; omega
  simp [toDouble, h, roundHalfEven_one]

theorem roundHalfEven_ge (n d : Nat) : n / d ≤ roundHalfEven n d := by
  unfold roundHalfEven
  split
  · omega
  · split <;> omega

theorem roundHalfEven_le (n d : Nat) : roundHalfEven n d ≤ n / d + 1 := by
  unfold roundHalfEven
  split
  · omega
  · split <;> omega

theorem roundHalfEven_up (n d : Nat) (h : roundHalfEven n d = n / d + 1) : d ≤ 2 * (n % d) := by
  unfold roundHalfEven at h
  split at h
  · omega
  · split at h
    · omega
    · omega

/-- Rounding the quotient of `a < 2 ^ 53` by `b` to a double and truncating gives `a / b`. -/
theorem divTrunc_exact (a b : Nat) (ha : a < 2 ^ 53) (hb : 0 < b) : divTrunc a b = a / b := by
  unfold divTrunc
  by_cases hk : a / b = 0
  · have hab : a < b := by
      rcases Nat.lt_or_ge a b with h | h
      · exact h
      · have := Nat.div_pos h hb
        omega
    have hno : ¬ ((2 ^ 54 - 1) * b ≤ 2 ^ 54 * a) := by
      have e1 : (2 : Nat) ^ 53 = 9007199254740992 := by norm_num
      have e2 : (2 : Nat) ^ 54 = 18014398509481984 := by norm_num
      rw [e1] at ha
      rw [e2]
      omega
    rw [if_pos hk, if_neg hno, hk]
  · have hL := bitLen_le_53 (a / b) (Nat.lt_of_le_of_lt (Nat.div_le_self a b) ha)
    simp only [hk, if_false, hL, if_true]
    have hlow := bitLen_lower (a / b) hk
    -- abbreviations
    generalize hLdef : bitLen (a / b) = L at hL hlow
    have hL1 : 1 ≤ L := by
      have := bitLen_upper (a / b)
      rw [hLdef] at this
      rcases Nat.eq_zero_or_pos L with h0 | h0
      · rw [h0] at this; simp at this; omega
      · exact h0
    generalize hSdef : 2 ^ (53 - L) = S
    have hSpos : 0 < S := by rw [← hSdef]; exact Nat.two_pow_pos _
    -- b < 2 * S
    have hb2 : b < 2 * S := by
      have h1 : 2 ^ (L - 1) * b ≤ a := by
        calc 2 ^ (L - 1) * b ≤ (a / b) * b := Nat.mul_le_mul_right b hlow
          _ ≤ a := Nat.div_mul_le_self a b
      have h2 : (2 : Nat) ^ 53 = 2 ^ (L - 1) * (2 * S) := by
        rw [← hSdef, ← Nat.pow_succ', ← Nat.pow_add]
        congr 1
        omega
      have h3 : 2 ^ (L - 1) * b < 2 ^ (L - 1) * (2 * S) := by omega
      exact Nat.lt_of_mul_lt_mul_left h3
    generalize hkdef : a / b = k at hk hlow
    have hdm := Nat.div_add_mod a b
    rw [hkdef] at hdm
    have hr : a % b < b := Nat.mod_lt a hb
    generalize hrdef : a % b = r at hdm hr
    -- n = a * S
    have hn1 : k * S ≤ (a * S) / b := by
      rw [Nat.le_div_iff_mul_le hb]
      calc k * S * b = (b * k) * S := by ring
        _ ≤ a * S := Nat.mul_le_mul_right S (by omega)
    have hn2 : (a * S) / b < (k + 1) * S := by
      rw [Nat.div_lt_iff_lt_mul hb]
      calc a * S < (b * (k + 1)) * S := by
            apply Nat.mul_lt_mul_of_pos_right _ hSpos
            have : b * (k + 1) = b * k + b := by ring
            omega
        _ = (k + 1) * S * b := by ring
    have hm1 := roundHalfEven_ge (a * S) b
    have hm2 := roundHalfEven_le (a * S) b
    have hup : roundHalfEven (a * S) b < (k + 1) * S := by
      by_contra hcon
      have heq : roundHalfEven (a * S) b = (a * S) / b + 1 := by omega
      have hq : (a * S) / b = (k + 1) * S - 1 := by omega
      have hu := roundHalfEven_up _ _ heq
      have hdm2 := Nat.div_add_mod (a * S) b
      rw [hq] at hdm2
      -- a * S + S ≤ b * ((k+1) * S)
      have h4 : a * S + S ≤ b * ((k + 1) * S) := by
        have : (a + 1) * S ≤ (b * (k + 1)) * S := by
          apply Nat.mul_le_mul_right
          have : b * (k + 1) = b * k + b := by ring
          omega
        calc a * S + S = (a + 1) * S := by ring
          _ ≤ (b * (k + 1)) * S := this
          _ = b * ((k + 1) * S) := by ring
      have h5 : b * ((k + 1) * S - 1) = b * ((k + 1) * S) - b := by
        rw [Nat.mul_sub, Nat.mul_one]
      have h6 : b ≤ b * ((k + 1) * S) := by
        apply Nat.le_mul_of_pos_right
        exact Nat.mul_pos (by omega) hSpos
      rw [h5] at hdm2
      omega
    apply Nat.div_eq_of_lt_le
    · calc k * S ≤ (a * S) / b := hn1
        _ ≤ _ := hm1
    · exact hup

theorem ticksToSeconds_lt (und : Nat → Int → Nat) (c : Nat) (F : Int) :
    ticksToSeconds und c F < 2 ^ 64 := by
  unfold ticksToSeconds
  split
  · rename_i h; exact h.2
  · exact Nat.mod_lt _ (by decide)

theorem ticksToSeconds_exact (und : Nat → Int → Nat) (c F : Nat) (hc : c < 2 ^ 53)
    (hF : 0 < F) (hF53 : F < 2 ^ 53) : ticksToSeconds und c (F : Int) = c / F := by
  have h : (0 : Int) < (F : Int) := by exact_mod_cast hF
  have hd : divTrunc (toDouble c) (toDouble F) = c / F := by
    rw [toDouble_exact c hc, toDouble_exact F hF53, divTrunc_exact c F hc hF]
  have hlt : c / F < 2 ^ 64 :=
    Nat.lt_of_le_of_lt (Nat.div_le_self c F) (Nat.lt_of_lt_of_le hc (by decide))
  simp only [ticksToSeconds, Int.toNat_ofNat, hd, h, hlt, and_self, if_true]

/-! ## Decimal digits -/

theorem digitChar_isDigit : ∀ m, m < 10 → (Nat.digitChar m).isDigit = true := by decide

theorem digitChar_val : ∀ m, m < 10 → (Nat.digitChar m).toNat - 48 = m := by decide

theorem toDigitsCore_isDigit : ∀ (fuel n : Nat) (ds : List Char),
    (∀ d ∈ ds, d.isDigit = true) → ∀ d ∈ Nat.toDigitsCore 10 fuel n ds, d.isDigit = true := by
  intro fuel
  induction fuel with
  | zero => intro n ds h; simpa [Nat.toDigitsCore] using h
  | succ fuel ih =>
    intro n ds h
    have hd : (Nat.digitChar (n % 10)).isDigit = true :=
      digitChar_isDigit _ (Nat.mod_lt _ (by decide))
    have hcons : ∀ d ∈ Nat.digitChar (n % 10) :: ds, d.isDigit = true := by
      intro d hmem
      rcases List.mem_cons.1 hmem with rfl | hmem
      · exact hd
      · exact h d hmem
    simp only [Nat.toDigitsCore]
    split
    · exact hcons
    · exact ih _ _ hcons

theorem toDigitsCore_ne_nil : ∀ (fuel n : Nat) (ds : List Char),
    (ds ≠ [] ∨ fuel ≠ 0) → Nat.toDigitsCore 10 fuel n ds ≠ [] := by
  intro fuel
  induction fuel with
  | zero => intro n ds h; simpa [Nat.toDigitsCore] using h
  | succ fuel ih =>
    intro n ds _
    simp only [Nat.toDigitsCore]
    split
    · simp
    · exact ih _ _ (Or.inl (by simp))

theorem foldl_toDigitsCore : ∀ (fuel n : Nat) (ds : List Char), n < fuel →
    (Nat.toDigitsCore 10 fuel n ds).foldl (fun a d => 10 * a + (d.toNat - 48)) 0 =
      ds.foldl (fun a d => 10 * a + (d.toNat - 48)) n := by
  intro fuel
  induction fuel with
  | zero => intro n ds h; omega
  | succ fuel ih =>
    intro n ds h
    have hv := digitChar_val (n % 10) (Nat.mod_lt _ (by decide))
    simp only [Nat.toDigitsCore]
    split
    · rename_i h0
      simp only [List.foldl_cons, hv]
      congr 1
      omega
    · rename_i h0
      rw [ih (n / 10) _ (by omega)]
      simp only [List.foldl_cons, hv]
      congr 1
      omega

theorem fmtLLU_ne_nil (n : Nat) : fmtLLU n ≠ [] :=
  toDigitsCore_ne_nil _ _ _ (Or.inr (by simp))

theorem fmtLLU_isDigit (n : Nat) : ∀ d ∈ fmtLLU n, d.isDigit = true :=
  toDigitsCore_isDigit _ _ _ (by simp)

theorem fmtLLU_val (n : Nat) :
    (fmtLLU n).foldl (fun a d => 10 * a + (d.toNat - 48)) 0 = n := by
  have h := foldl_toDigitsCore (n + 1) n [] (by omega)
  simpa [fmtLLU, Nat.toDigits] using h

theorem fmtLLU_injective : Function.Injective fmtLLU := by
  intro a b h
  rw [← fmtLLU_val a, ← fmtLLU_val b, h]

theorem parseDigits_fmtLLU (n : Nat) : parseDigits (fmtLLU n) = some (n : ℚ) := by
  have h1 := fmtLLU_ne_nil n
  have h2 : (fmtLLU n).all Char.isDigit = true := List.all_eq_true.2 (fmtLLU_isDigit n)
  simp [parseDigits, h1, h2, fmtLLU_val]

theorem parseDigits_accepts : AcceptsDecimals parseDigits :=
  fun n _ => ⟨_, parseDigits_fmtLLU n⟩

theorem parseDigits_exact : ExactDecimals parseDigits :=
  fun n _ => parseDigits_fmtLLU n

theorem parsed_exact (pf : List Char → Option ℚ) (h : ExactDecimals pf) (n : Nat)
    (hn : n < 2 ^ 53) : parsed pf n = (n : ℚ) := by
  simp [parsed, h n hn]

theorem isDigit_not_space (d : Char) (h : d.isDigit = true) : isSpace d = false ∧ d ≠ ' ' := by
  simp only [Char.isDigit, Bool.and_eq_true, decide_eq_true_eq] at h
  obtain ⟨h1, h2⟩ := h
  have h1' : 48 ≤ d.toNat := h1
  have h2' : d.toNat ≤ 57 := h2
  constructor
  · simp only [isSpace, Bool.or_eq_false_iff, Bool.and_eq_false_imp, decide_eq_true_eq,
      decide_eq_false_iff_not]
    omega
  · rintro rfl
    revert h1'
    decide

/-! ## Tokenising -/

theorem Split_token_sep (sep : Char) (rest : List Char) :
    ∀ t : List Char, (∀ x ∈ t, x ≠ sep) → Split (t ++ sep :: rest) sep = t :: Split rest sep := by
  intro t
  induction t with
  | nil => intro _; simp [Split]
  | cons x t ih =>
    intro h
    have hx : x ≠ sep := h x (by simp)
    have ht := ih (fun y hy => h y (by simp [hy]))
    simp [Split, hx, ht]

theorem Split_token (sep : Char) :
    ∀ t : List Char, (∀ x ∈ t, x ≠ sep) → Split t sep = [t] := by
  intro t
  induction t with
  | nil => intro _; simp [Split]
  | cons x t ih =>
    intro h
    have hx : x ≠ sep := h x (by simp)
    have ht := ih (fun y hy => h y (by simp [hy]))
    simp [Split, hx, ht]

theorem Split_spaced (t : List Char) (ht : ∀ x ∈ t, x ≠ ' ') :
    ∀ ts : List (List Char), (∀ u ∈ ts, ∀ x ∈ u, x ≠ ' ') →
      Split (spaced ts ++ t) ' ' = ts ++ [t] := by
  intro ts
  induction ts with
  | nil => intro _; simpa [spaced] using Split_token ' ' t ht
  | cons u ts ih =>
    intro h
    have hu : ∀ x ∈ u, x ≠ ' ' := h u (by simp)
    have hts := ih (fun w hw => h w (by simp [hw]))
    have e : spaced (u :: ts) ++ t = u ++ ' ' :: (spaced ts ++ t) := by simp [spaced]
    rw [e, Split_token_sep ' ' _ u hu, hts]
    simp

theorem spaced_append (ts us : List (List Char)) :
    spaced (ts ++ us) = spaced ts ++ spaced us := by
  induction ts with
  | nil => simp [spaced]
  | cons t ts ih => simp [spaced, ih]

theorem IsToken.no_sep {t : List Char} (h : IsToken t) : ∀ x ∈ t, x ≠ ' ' := by
  intro x hx hsp
  have := h.2 x hx
  rw [hsp] at this
  revert this
  decide

theorem dropWhile_spaced (ts : List (List Char)) (h : ∀ t ∈ ts, IsToken t) :
    (spaced ts).dropWhile isSpace = spaced ts := by
  cases ts with
  | nil => simp [spaced]
  | cons t ts =>
    have ht := h t (by simp)
    cases t with
    | nil => exact absurd rfl ht.1
    | cons x t =>
      have hx : isSpace x = false := ht.2 x (by simp)
      simp [spaced, hx]

theorem rdropWhile_token (pre t : List Char) (ht : IsToken t) :
    (pre ++ t ++ [' ']).rdropWhile isSpace = pre ++ t := by
  rw [List.rdropWhile_concat_pos _ _ _ (by decide)]
  obtain ⟨u, x, rfl⟩ : ∃ u x, t = u ++ [x] := by
    rcases List.eq_nil_or_concat t with h | ⟨u, x, h⟩
    · exact absurd h ht.1
    · exact ⟨u, x, by simpa using h⟩
  have hx : isSpace x = false := ht.2 x (by simp)
  rw [← List.append_assoc]
  exact List.rdropWhile_concat_neg _ _ _ (by simp [hx])

/-- Trimming and splitting the text of a non-empty list of tokens gives the tokens back. -/
theorem Split_TrimSpace_spaced (ts : List (List Char)) (hne : ts ≠ [])
    (h : ∀ t ∈ ts, IsToken t) : Split (TrimSpace (spaced ts)) ' ' = ts := by
  obtain ⟨us, t, rfl⟩ : ∃ us t, ts = us ++ [t] := by
    rcases List.eq_nil_or_concat ts with h0 | ⟨us, t, h0⟩
    · exact absurd h0 hne
    · exact ⟨us, t, by simpa using h0⟩
  have ht : IsToken t := h t (by simp)
  have hus : ∀ u ∈ us, IsToken u := fun u hu => h u (by simp [hu])
  have e : spaced (us ++ [t]) = spaced us ++ t ++ [' '] := by
    simp [spaced_append, spaced]
  rw [TrimSpace, dropWhile_spaced _ h, e, rdropWhile_token _ _ ht]
  exact Split_spaced t ht.no_sep us (fun u hu => (hus u hu).no_sep)

theorem fmtLLU_isToken (n : Nat) : IsToken (fmtLLU n) :=
  ⟨fmtLLU_ne_nil n, fun x hx => (isDigit_not_space x (fmtLLU_isDigit n x hx)).1⟩

/-! ## The decode loop -/

theorem samplesFrom_length (c : statCollector) :
    ∀ (vals : List ℚ) (i : Nat), (samplesFrom c i vals).length = vals.length := by
  intro vals
  induction vals with
  | nil => intro i; simp [samplesFrom]
  | cons v vs ih => intro i; simp [samplesFrom, ih]

theorem samplesFrom_getElem? (c : statCollector) :
    ∀ (vals : List ℚ) (i j : Nat),
      (samplesFrom c i vals)[j]? = (vals[j]?).map (sample c (i + j)) := by
  intro vals
  induction vals with
  | nil => intro i j; simp [samplesFrom]
  | cons v vs ih =>
    intro i j
    cases j with
    | zero => simp [samplesFrom]
    | succ j =>
      have e : i + (j + 1) = i + 1 + j := by omega
      simp [samplesFrom, ih, e]

theorem loop_ok (pf : List Char → Option ℚ) (c : statCollector) (f : List Char → ℚ) :
    ∀ (vs : List (List Char)) (i : Nat) (ch : List Metric),
      (∀ v ∈ vs, pf v = some (f v)) →
      Update.loop pf c i vs ch = (ch ++ samplesFrom c i (vs.map f), none) := by
  intro vs
  induction vs with
  | nil => intro i ch _; simp [Update.loop, samplesFrom]
  | cons v vs ih =>
    intro i ch h
    have hv : pf v = some (f v) := h v (by simp)
    have hvs := ih (i + 1) (ch ++ [sample c i (f v)]) (fun w hw => h w (by simp [hw]))
    simp [Update.loop, hv, hvs, samplesFrom]

theorem loop_fail (pf : List Char → Option ℚ) (c : statCollector) (f : List Char → ℚ)
    (bad : List Char) (post : List (List Char)) (hbad : pf bad = none) :
    ∀ (pre : List (List Char)) (i : Nat) (ch : List Metric),
      (∀ v ∈ pre, pf v = some (f v)) →
      Update.loop pf c i (pre ++ bad :: post) ch =
        (ch ++ samplesFrom c i (pre.map f), some (GoError.NumError bad)) := by
  intro pre
  induction pre with
  | nil => intro i ch _; simp [Update.loop, hbad, samplesFrom]
  | cons v vs ih =>
    intro i ch h
    have hv : pf v = some (f v) := h v (by simp)
    have hvs := ih (i + 1) (ch ++ [sample c i (f v)]) (fun w hw => h w (by simp [hw]))
    simp [Update.loop, hv, hvs, samplesFrom]

/-- Decoding the text of a non-empty list of tokens that all parse sends one
metric per token and returns no error. -/
theorem decode_spaced (pf : List Char → Option ℚ) (c : statCollector) (f : List Char → ℚ)
    (ts : List (List Char)) (ch : List Metric) (hne : ts ≠ [])
    (htok : ∀ t ∈ ts, IsToken t) (hpf : ∀ t ∈ ts, pf t = some (f t)) :
    Update.decode pf c (some (spaced ts)) ch =
      ⟨c, ch ++ samplesFrom c 0 (ts.map f), none⟩ := by
  simp [Update.decode, GoString, Split_TrimSpace_spaced ts hne htok, loop_ok pf c f ts 0 ch hpf]

/-! ## The memory `getCPUTimes` writes -/

theorem cString_append_NUL (text rest : List Char) (h : ∀ x ∈ text, x ≠ NUL) :
    cString (text ++ NUL :: rest) = text := by
  induction text with
  | nil => simp [cString, List.takeWhile]
  | cons x t ih =>
    have hx : x ≠ NUL := h x (by simp)
    have ht := ih (fun y hy => h y (by simp [hy]))
    simp only [cString] at ht
    have hb : (x != NUL) = true := by simp [hx]
    show List.takeWhile (fun x => x != NUL) (x :: (t ++ NUL :: rest)) = x :: t
    rw [List.takeWhile_cons, if_pos hb, ht]

theorem sprintfAt_end (text rest line : List Char) (h : ∀ x ∈ text, x ≠ NUL) :
    sprintfAt (text ++ NUL :: rest) (strlen (text ++ NUL :: rest)) line =
      (text ++ line) ++ NUL :: rest.drop line.length := by
  have hl : strlen (text ++ NUL :: rest) = text.length := by
    rw [strlen, cString_append_NUL text rest h]
  rw [hl, sprintfAt, List.take_left]
  have e : text.length + line.length + 1 = text.length + (line.length + 1) := by omega
  rw [e, List.drop_append]
  simp

theorem fmtLLU_no_NUL (n : Nat) : ∀ x ∈ fmtLLU n, x ≠ NUL := by
  intro x hx h
  have hd := fmtLLU_isDigit n x hx
  rw [h] at hd
  revert hd
  decide

theorem spaced_no_NUL : ∀ ts : List (List Char), (∀ t ∈ ts, ∀ x ∈ t, x ≠ NUL) →
    ∀ x ∈ spaced ts, x ≠ NUL := by
  intro ts
  induction ts with
  | nil => intro _ x hx; simp [spaced] at hx
  | cons t ts ih =>
    intro h x hx
    simp only [spaced, List.mem_append, List.mem_cons] at hx
    rcases hx with hx | hx | hx
    · exact h t (by simp) x hx
    · rw [hx]; decide
    · exact ih (fun u hu => h u (by simp [hu])) x hx

theorem sprintfLine_eq (und : Nat → Int → Nat) (freq : Int) (e : kinfo_cputime) :
    sprintfLine und freq e = spaced ((lineValues und freq e).map fmtLLU) := by
  simp [sprintfLine, lineValues, spaced]

theorem spaced_fmtLLU_no_NUL (vals : List Nat) : ∀ x ∈ spaced (vals.map fmtLLU), x ≠ NUL := by
  apply spaced_no_NUL
  intro t ht
  obtain ⟨n, _, rfl⟩ := List.mem_map.1 ht
  exact fmtLLU_no_NUL n

theorem sprintfLine_no_NUL (und : Nat → Int → Nat) (freq : Int) (e : kinfo_cputime) :
    ∀ x ∈ sprintfLine und freq e, x ≠ NUL := by
  rw [sprintfLine_eq]
  exact spaced_fmtLLU_no_NUL _

/-- The loop of `getCPUTimes` on a buffer that holds the string `text`: the
lines are appended to `text`, one after the other. -/
theorem foldl_step (und : Nat → Int → Nat) (freq : Int) (cp : List kinfo_cputime)
    (size : Nat) :
    ∀ (is : List Nat) (text rest : List Char) (ok : Bool), (∀ x ∈ text, x ≠ NUL) →
      ∃ rest2 ok2, is.foldl (getCPUTimes.step und freq cp size) (text ++ NUL :: rest, ok) =
        ((text ++ (is.map (fun i => sprintfLine und freq (cp_t cp i))).flatten) ++
          NUL :: rest2, ok2) := by
  intro is
  induction is with
  | nil => intro text rest ok _; exact ⟨rest, ok, by simp⟩
  | cons i is ih =>
    intro text rest ok h
    have h2 : ∀ x ∈ text ++ sprintfLine und freq (cp_t cp i), x ≠ NUL := by
      intro x hx
      rcases List.mem_append.1 hx with hx | hx
      · exact h x hx
      · exact sprintfLine_no_NUL und freq _ x hx
    obtain ⟨rest2, ok2, hfold⟩ := ih (text ++ sprintfLine und freq (cp_t cp i))
      (rest.drop (sprintfLine und freq (cp_t cp i)).length)
      (ok && decide (strlen (text ++ NUL :: rest) +
        (sprintfLine und freq (cp_t cp i)).length + 1 ≤ size)) h2
    refine ⟨rest2, ok2, ?_⟩
    rw [List.foldl_cons]
    have hs : getCPUTimes.step und freq cp size (text ++ NUL :: rest, ok) i =
        ((text ++ sprintfLine und freq (cp_t cp i)) ++
          NUL :: rest.drop (sprintfLine und freq (cp_t cp i)).length,
         ok && decide (strlen (text ++ NUL :: rest) +
          (sprintfLine und freq (cp_t cp i)).length + 1 ≤ size)) := by
      simp only [getCPUTimes.step]
      rw [sprintfAt_end text rest _ h]
    rw [hs, hfold]
    simp [List.append_assoc]

theorem lines_eq (und : Nat → Int → Nat) (freq : Int) (cp : List kinfo_cputime) :
    ∀ n : Nat, ((List.range n).map (fun i => sprintfLine und freq (cp_t cp i))).flatten =
      spaced ((frame und freq cp n).map fmtLLU) := by
  intro n
  induction n with
  | zero => simp [frame, spaced]
  | succ n ih =>
    rw [List.range_succ, List.map_append, List.flatten_append, ih]
    simp [frame, spaced_append, sprintfLine_eq]

theorem frame_length (und : Nat → Int → Nat) (freq : Int) (cp : List kinfo_cputime) :
    ∀ n : Nat, (frame und freq cp n).length = 5 * n := by
  intro n
  induction n with
  | zero => simp [frame]
  | succ n ih => simp [frame, ih, lineValues]; omega

theorem lineValues_getElem? (und : Nat → Int → Nat) (freq : Int) (e : kinfo_cputime)
    (s : Nat) (hs : s < 5) :
    (lineValues und freq e)[s]? = some (ticksToSeconds und (counter e s) freq) := by
  interval_cases s <;> simp [lineValues, counter]

theorem frame_getElem? (und : Nat → Int → Nat) (freq : Int) (cp : List kinfo_cputime) :
    ∀ (n i s : Nat), i < n → s < 5 →
      (frame und freq cp n)[5 * i + s]? =
        some (ticksToSeconds und (counter (cp_t cp i) s) freq) := by
  intro n
  induction n with
  | zero => intro i s hi; omega
  | succ n ih =>
    intro i s hi hs
    by_cases h : i < n
    · rw [frame, List.getElem?_append_left (by rw [frame_length]; omega)]
      exact ih i s h hs
    · have e : i = n := by omega
      subst e
      rw [frame, List.getElem?_append_right (by rw [frame_length]; omega), frame_length]
      have e2 : 5 * i + s - 5 * i = s := by omega
      rw [e2]
      exact lineValues_getElem? und freq _ s hs

theorem frame_lt (und : Nat → Int → Nat) (freq : Int) (cp : List kinfo_cputime) :
    ∀ n : Nat, ∀ x ∈ frame und freq cp n, x < 2 ^ 64 := by
  intro n
  induction n with
  | zero => intro x hx; simp [frame] at hx
  | succ n ih =>
    intro x hx
    rw [frame, List.mem_append] at hx
    rcases hx with hx | hx
    · exact ih x hx
    · simp only [lineValues, List.mem_cons, List.mem_singleton, List.not_mem_nil,
        or_false] at hx
      rcases hx with rfl | rfl | rfl | rfl | rfl <;> exact ticksToSeconds_lt _ _ _

theorem cp_t_eq (cp : List kinfo_cputime) (i : Nat) (e : kinfo_cputime)
    (h : cp[i]? = some e) : cp_t cp i = e := by
  simp [cp_t, List.getD, h]

/-- The three reads succeed: `getCPUTimes` returns 0. -/
theorem getCPUTimes_rc (und : Nat → Int → Nat) (mem : List Char) (k : Kernel) (N : Nat)
    (F : Int) (cp : List kinfo_cputime) (hn : k.hw_ncpu = some N)
    (hf : k.cputimer_freq = some F) (hc : k.cputime = some cp) :
    (getCPUTimes und mem k).rc = 0 := by
  simp [getCPUTimes, hn, hf, hc]

/-- The three reads succeed and report no core: the string at the address is
the one the memory held, and the run is not in bounds. -/
theorem getCPUTimes_zero (und : Nat → Int → Nat) (mem : List Char) (k : Kernel)
    (F : Int) (cp : List kinfo_cputime) (hn : k.hw_ncpu = some 0)
    (hf : k.cputimer_freq = some F) (hc : k.cputime = some cp) :
    getCPUTimes und mem k = ⟨0, some (cString mem), false⟩ := by
  simp [getCPUTimes, hn, hf, hc, cputime_size, bzero]

/-- The three reads succeed and report at least one core: the string at the
address is the text of the numbers printed, whatever the memory held before. -/
theorem getCPUTimes_ok (und : Nat → Int → Nat) (mem : List Char) (k : Kernel) (N : Nat)
    (F : Int) (cp : List kinfo_cputime) (hn : k.hw_ncpu = some N) (hN : 1 ≤ N)
    (hf : k.cputimer_freq = some F) (hc : k.cputime = some cp) :
    (getCPUTimes und mem k).rc = 0 ∧
    (getCPUTimes und mem k).cputime = some (spaced ((frame und F cp N).map fmtLLU)) := by
  refine ⟨getCPUTimes_rc und mem k N F cp hn hf hc, ?_⟩
  obtain ⟨M, hM⟩ : ∃ M, cputime_size N = M + 1 := ⟨cputime_size N - 1, by
    simp only [cputime_size]; omega⟩
  have hb : bzero mem (cputime_size N) =
      [] ++ NUL :: (List.replicate M NUL ++ mem.drop (cputime_size N)) := by
    simp [bzero, hM, List.replicate_succ]
  obtain ⟨rest2, ok2, hfold⟩ := foldl_step und F cp (cputime_size N) (List.range N) []
    (List.replicate M NUL ++ mem.drop (cputime_size N))
    (decide (cputime_size N < 2 ^ 31)) (by simp)
  simp only [getCPUTimes, hn, hf, hc]
  rw [hb, hfold, List.nil_append, lines_eq,
    cString_append_NUL _ _ (spaced_fmtLLU_no_NUL _)]

/-- A run that is in bounds after three successful reads reported at least one core. -/
theorem inBounds_pos (und : Nat → Int → Nat) (mem : List Char) (k : Kernel) (N : Nat)
    (F : Int) (cp : List kinfo_cputime) (hn : k.hw_ncpu = some N)
    (hf : k.cputimer_freq = some F) (hc : k.cputime = some cp)
    (h : (getCPUTimes und mem k).inBounds = true) : 1 ≤ N := by
  rcases Nat.eq_zero_or_pos N with h0 | h0
  · subst h0
    rw [getCPUTimes_zero und mem k F cp hn hf hc] at h
    simp at h
  · exact h0

/-! ## From the kernel state to the metrics -/

/-- The three reads succeed: `Update` goes on to decode the string at the
address `getCPUTimes` stored. -/
theorem Update_eq_decode (pf : List Char → Option ℚ) (und : Nat → Int → Nat)
    (mem : List Char) (c : statCollector) (k : Kernel) (ch : List Metric) (N : Nat) (F : Int)
    (cp : List kinfo_cputime) (hn : k.hw_ncpu = some N) (hf : k.cputimer_freq = some F)
    (hc : k.cputime = some cp) :
    Update pf und mem c k ch = Update.decode pf c (getCPUTimes und mem k).cputime ch := by
  have hrc := getCPUTimes_rc und mem k N F cp hn hf hc
  have hrc2 : (getCPUTimes und mem k).1 = 0 := hrc
  simp [Update, hrc2]

/-- A successful query of at least one core: `Update` sends the metrics of the
numbers `getCPUTimes` printed, in the order printed, and returns no error. -/
theorem Update_frame (pf : List Char → Option ℚ) (und : Nat → Int → Nat) (mem : List Char)
    (c : statCollector) (k : Kernel) (ch : List Metric) (N : Nat) (F : Int)
    (cp : List kinfo_cputime)
    (hpf : AcceptsDecimals pf) (hn : k.hw_ncpu = some N) (hN : 1 ≤ N)
    (hf : k.cputimer_freq = some F) (hc : k.cputime = some cp) :
    Update pf und mem c k ch =
      ⟨c, ch ++ samplesFrom c 0 ((frame und F cp N).map (parsed pf)), none⟩ := by
  have hne : (frame und F cp N).map fmtLLU ≠ [] := by
    intro h0
    have := congrArg List.length h0
    simp [frame_length] at this
    omega
  have hd := decode_spaced pf c (fun t => (pf t).getD 0)
    ((frame und F cp N).map fmtLLU) ch hne
    (by
      intro t ht
      obtain ⟨n, _, rfl⟩ := List.mem_map.1 ht
      exact fmtLLU_isToken n)
    (by
      intro t ht
      obtain ⟨n, hmem, rfl⟩ := List.mem_map.1 ht
      obtain ⟨v, hv⟩ := hpf n (frame_lt und F cp N n hmem)
      simp only [hv, Option.getD_some])
  rw [Update_eq_decode pf und mem c k ch N F cp hn hf hc,
    (getCPUTimes_ok und mem k N F cp hn hN hf hc).2, hd]
  have e2 : List.map (fun t => (pf t).getD 0) ((frame und F cp N).map fmtLLU) =
      (frame und F cp N).map (parsed pf) := by
    rw [List.map_map]
    rfl
  rw [e2]

/-! ## Labels -/

theorem cpux_eq (n : Nat) : cpux n = String.mk ('c' :: 'p' :: 'u' :: fmtLLU n) := rfl

theorem cpux_injective {a b : Nat} (h : cpux a = cpux b) : a = b := by
  rw [cpux_eq, cpux_eq] at h
  have h2 := congrArg String.data h
  simp only [List.cons.injEq, true_and] at h2
  exact fmtLLU_injective h2

theorem cpux_ne_intr (n : Nat) : cpux n ≠ "intr" := by
  rw [cpux_eq]
  intro h
  have h2 := congrArg String.data h
  simp at h2

theorem cpuFields_injective :
    ∀ s, s < 5 → ∀ t, t < 5 → cpuFields.getD s "" = cpuFields.getD t "" → s = t := by
  decide

theorem cpuFields_ne_intr : ∀ s, s < 5 → cpuFields.getD s "" ≠ "intr" := by decide

theorem cpuFields_getElem? : ∀ s, s < 5 →
    ["user", "nice", "sys", "interrupt", "idle"][s]? = some (cpuFields.getD s "") := by
  decide

theorem sample_labelValues (c : statCollector) (j : Nat) (v : ℚ) :
    (sample c j v).labelValues = [cpux (j / 5), cpuFields.getD (j % 5) ""] := rfl

theorem sample_value (c : statCollector) (j : Nat) (v : ℚ) : (sample c j v).value = v := rfl

/-- Two positions of one frame that carry the same labels are the same position. -/
theorem labels_injective {i s j : Nat} (hs : s < 5)
    (h : [cpux (j / 5), cpuFields.getD (j % 5) ""] = [cpux i, cpuFields.getD s ""]) :
    j = 5 * i + s := by
  simp only [List.cons.injEq, and_true] at h
  have h1 := cpux_injective h.1
  have h2 := cpuFields_injective _ (Nat.mod_lt _ (by decide)) _ hs h.2
  omega

/-- The metric at position `j` of a frame: the sample of the `j`-th number printed. -/
theorem frame_sample (pf : List Char → Option ℚ) (c : statCollector) (und : Nat → Int → Nat)
    (F : Int) (cp : List kinfo_cputime) (N i s : Nat) (hi : i < N) (hs : s < 5) :
    (samplesFrom c 0 ((frame und F cp N).map (parsed pf)))[5 * i + s]? =
      some (sample c (5 * i + s) (parsed pf (ticksToSeconds und (counter (cp_t cp i) s) F))) := by
  rw [samplesFrom_getElem?, List.getElem?_map, frame_getElem? und F cp N i s hi hs]
  simp

/-- The loop adds to the channel it is given what it would send into an empty one. -/
theorem loop_append (pf : List Char → Option ℚ) (c : statCollector) :
    ∀ (vs : List (List Char)) (i : Nat) (ch : List Metric),
      Update.loop pf c i vs ch =
        (ch ++ (Update.loop pf c i vs []).1, (Update.loop pf c i vs []).2) := by
  intro vs
  induction vs with
  | nil => intro i ch; simp [Update.loop]
  | cons v vs ih =>
    intro i ch
    cases hv : pf v with
    | none => simp [Update.loop, hv]
    | some q =>
      simp only [Update.loop, hv, List.nil_append]
      rw [ih (i + 1) (ch ++ [sample c i q]), ih (i + 1) [sample c i q]]
      simp

/-! ## Values -/

theorem samplesFrom_values (c : statCollector) :
    ∀ (vals : List ℚ) (i : Nat), (samplesFrom c i vals).map Metric.value = vals := by
  intro vals
  induction vals with
  | nil => intro i; simp [samplesFrom]
  | cons v vs ih => intro i; simp [samplesFrom, ih, sample_value]

/-- A metric of a frame that carries the labels of core `i` and state `s` has the
value printed for that core and state. -/
theorem frame_value_of_labels (pf : List Char → Option ℚ) (c : statCollector)
    (und : Nat → Int → Nat) (F : Int) (cp : List kinfo_cputime) (N : Nat) (m : Metric)
    (hm : m ∈ samplesFrom c 0 ((frame und F cp N).map (parsed pf)))
    (i s : Nat) (hs : s < 5) (hl : m.labelValues = [cpux i, cpuFields.getD s ""]) :
    m.value = parsed pf (ticksToSeconds und (counter (cp_t cp i) s) F) := by
  obtain ⟨j, hj, hmj⟩ := List.mem_iff_getElem.1 hm
  have hj2 : j < 5 * N := by simpa [samplesFrom_length, frame_length] using hj
  have h := frame_sample pf c und F cp N (j / 5) (j % 5) (by omega) (Nat.mod_lt _ (by decide))
  have e : 5 * (j / 5) + j % 5 = j := Nat.div_add_mod j 5
  rw [e, List.getElem?_eq_getElem hj, hmj] at h
  have hm2 := Option.some.inj h
  rw [hm2, sample_labelValues] at hl
  have hj3 := labels_injective hs hl
  have e1 : j / 5 = i := by omega
  have e2 : j % 5 = s := by omega
  rw [hm2, sample_value, e1, e2]

theorem loop_err (pf : List Char → Option ℚ) (c : statCollector) :
    ∀ (vs : List (List Char)) (i : Nat) (ch : List Metric) (text : String),
      (Update.loop pf c i vs ch).2 ≠ some (GoError.New text) := by
  intro vs
  induction vs with
  | nil => intro i ch text; simp [Update.loop]
  | cons v vs ih =>
    intro i ch text
    cases hv : pf v with
    | none => simp [Update.loop, hv]
    | some q => simpa [Update.loop, hv] using ih (i + 1) _ text

/-- The value sent for a counter below `2 ^ 53` at a frequency below `2 ^ 53`. -/
theorem parsed_ticksToSeconds (pf : List Char → Option ℚ) (hex : ExactDecimals pf)
    (und : Nat → Int → Nat) (t F : Nat) (ht : t < 2 ^ 53) (hF : 0 < F) (hF53 : F < 2 ^ 53) :
    parsed pf (ticksToSeconds und t (F : Int)) = ((t / F : Nat) : ℚ) := by
  rw [ticksToSeconds_exact und t F ht hF hF53,
    parsed_exact pf hex _ (Nat.lt_of_le_of_lt (Nat.div_le_self t F) ht)]

theorem Split_ne_nil (sep : Char) : ∀ s : List Char, Split s sep ≠ [] := by
  intro s
  induction s with
  | nil => simp [Split]
  | cons x s ih =>
    unfold Split
    split
    · simp
    · split <;> simp

theorem loop_none_iff (pf : List Char → Option ℚ) (c : statCollector) :
    ∀ (ts : List (List Char)) (i : Nat) (ch : List Metric),
      (Update.loop pf c i ts ch).2 = none ↔ ∀ t ∈ ts, ∃ v, pf t = some v := by
  intro ts
  induction ts with
  | nil => intro i ch; simp [Update.loop]
  | cons t ts ih =>
    intro i ch
    cases ht : pf t with
    | none => simp [Update.loop, ht]
    | some q => simp [Update.loop, ht, ih]

theorem loop_some (pf : List Char → Option ℚ) (c : statCollector) :
    ∀ (ts : List (List Char)) (i : Nat) (ch : List Metric) (e : GoError),
      (Update.loop pf c i ts ch).2 = some e → ∃ bad ∈ ts, pf bad = none ∧
        e = GoError.NumError bad := by
  intro ts
  induction ts with
  | nil => intro i ch e h; simp [Update.loop] at h
  | cons t ts ih =>
    intro i ch e h
    cases ht : pf t with
    | none =>
      simp only [Update.loop, ht, Option.some.injEq] at h
      exact ⟨t, by simp, ht, h.symm⟩
    | some q =>
      simp only [Update.loop, ht] at h
      obtain ⟨bad, hbad, h1, h2⟩ := ih _ _ e h
      exact ⟨bad, by simp [hbad], h1, h2⟩

theorem loop_length (pf : List Char → Option ℚ) (c : statCollector) :
    ∀ (ts : List (List Char)) (i : Nat) (ch : List Metric),
      (Update.loop pf c i ts ch).2 = none →
      ∃ out, (Update.loop pf c i ts ch).1 = ch ++ out ∧ out.length = ts.length := by
  intro ts i ch h
  have hall := (loop_none_iff pf c ts i ch).1 h
  have hpf : ∀ t ∈ ts, pf t = some ((pf t).getD 0) := by
    intro t ht
    obtain ⟨v, hv⟩ := hall t ht
    rw [hv]
    rfl
  rw [loop_ok pf c (fun t => (pf t).getD 0) ts i ch hpf]
  exact ⟨_, rfl, by simp [samplesFrom_length]⟩

/-- The loop over at least one token ends with an error or has sent a metric. -/
theorem loop_progress (pf : List Char → Option ℚ) (c : statCollector)
    (ts : List (List Char)) (i : Nat) (ch : List Metric) (hne : ts ≠ []) :
    (Update.loop pf c i ts ch).2 ≠ none ∨
      ∃ m out, (Update.loop pf c i ts ch).1 = ch ++ m :: out := by
  cases ts with
  | nil => exact absurd rfl hne
  | cons t ts =>
    cases ht : pf t with
    | none => left; simp [Update.loop, ht]
    | some q =>
      right
      refine ⟨sample c i q, (Update.loop pf c (i + 1) ts []).1, ?_⟩
      simp only [Update.loop, ht]
      rw [loop_append]
      simp

/-! ## Bounds and memory -/

/-- The loop of `getCPUTimes` keeps its in-bounds mark exactly when the string
it ends with, NUL included, lies inside the `size` bytes. -/
theorem foldl_step_ok (und : Nat → Int → Nat) (freq : Int) (cp : List kinfo_cputime)
    (size : Nat) :
    ∀ (is : List Nat) (text rest : List Char) (ok : Bool), (∀ x ∈ text, x ≠ NUL) →
      ((is.foldl (getCPUTimes.step und freq cp size) (text ++ NUL :: rest, ok)).2 &&
        decide (strlen (is.foldl (getCPUTimes.step und freq cp size)
          (text ++ NUL :: rest, ok)).1 < size)) =
      (ok && decide (strlen (is.foldl (getCPUTimes.step und freq cp size)
          (text ++ NUL :: rest, ok)).1 < size)) := by
  intro is
  induction is with
  | nil => intro text rest ok _; rfl
  | cons i is ih =>
    intro text rest ok h
    have h2 : ∀ x ∈ text ++ sprintfLine und freq (cp_t cp i), x ≠ NUL := by
      intro x hx
      rcases List.mem_append.1 hx with hx | hx
      · exact h x hx
      · exact sprintfLine_no_NUL und freq _ x hx
    have hs : getCPUTimes.step und freq cp size (text ++ NUL :: rest, ok) i =
        ((text ++ sprintfLine und freq (cp_t cp i)) ++
          NUL :: rest.drop (sprintfLine und freq (cp_t cp i)).length,
         ok && decide (text.length + (sprintfLine und freq (cp_t cp i)).length + 1 ≤ size)) := by
      have hl : strlen (text ++ NUL :: rest) = text.length := by
        rw [strlen, cString_append_NUL text rest h]
      simp only [getCPUTimes.step]
      rw [sprintfAt_end text rest _ h, hl]
    rw [List.foldl_cons, hs, ih _ _ _ h2]
    obtain ⟨rest2, ok2, hfold⟩ := foldl_step und freq cp size is
      (text ++ sprintfLine und freq (cp_t cp i))
      (rest.drop (sprintfLine und freq (cp_t cp i)).length)
      (ok && decide (text.length + (sprintfLine und freq (cp_t cp i)).length + 1 ≤ size)) h2
    rw [hfold]
    have hno : ∀ x ∈ (text ++ sprintfLine und freq (cp_t cp i)) ++
        (is.map (fun i => sprintfLine und freq (cp_t cp i))).flatten, x ≠ NUL := by
      intro x hx
      rcases List.mem_append.1 hx with hx | hx
      · exact h2 x hx
      · obtain ⟨l, hl, hxl⟩ := List.mem_flatten.1 hx
        obtain ⟨j, _, rfl⟩ := List.mem_map.1 hl
        exact sprintfLine_no_NUL und freq _ x hxl
    have hlen : strlen (((text ++ sprintfLine und freq (cp_t cp i)) ++
        (is.map (fun i => sprintfLine und freq (cp_t cp i))).flatten) ++ NUL :: rest2) =
        ((text ++ sprintfLine und freq (cp_t cp i)) ++
          (is.map (fun i => sprintfLine und freq (cp_t cp i))).flatten).length := by
      rw [strlen, cString_append_NUL _ _ hno]
    rw [hlen]
    by_cases hD : ((text ++ sprintfLine und freq (cp_t cp i)) ++
        (is.map (fun i => sprintfLine und freq (cp_t cp i))).flatten).length < size
    · have hstep : text.length + (sprintfLine und freq (cp_t cp i)).length + 1 ≤ size := by
        simp only [List.length_append] at hD
        omega
      rw [decide_eq_true hD, decide_eq_true hstep]
      simp
    · rw [decide_eq_false hD]
      simp

/-- After three successful reads that report at least one core, the run is in
bounds exactly when the size fits an `int` and the text with its NUL fits the
bytes allocated; the memory found plays no part. -/
theorem getCPUTimes_inBounds (und : Nat → Int → Nat) (mem : List Char) (k : Kernel) (N : Nat)
    (F : Int) (cp : List kinfo_cputime) (hn : k.hw_ncpu = some N) (hN : 1 ≤ N)
    (hf : k.cputimer_freq = some F) (hc : k.cputime = some cp) :
    (getCPUTimes und mem k).inBounds =
      (decide (cputime_size N < 2 ^ 31) &&
        decide ((spaced ((frame und F cp N).map fmtLLU)).length + 1 ≤ cputime_size N)) := by
  obtain ⟨M, hM⟩ : ∃ M, cputime_size N = M + 1 := ⟨cputime_size N - 1, by
    simp only [cputime_size]; omega⟩
  have hb : bzero mem (cputime_size N) =
      [] ++ NUL :: (List.replicate M NUL ++ mem.drop (cputime_size N)) := by
    simp [bzero, hM, List.replicate_succ]
  have hok := foldl_step_ok und F cp (cputime_size N) (List.range N) []
    (List.replicate M NUL ++ mem.drop (cputime_size N))
    (decide (cputime_size N < 2 ^ 31)) (by simp)
  obtain ⟨rest2, ok2, hfold⟩ := foldl_step und F cp (cputime_size N) (List.range N) []
    (List.replicate M NUL ++ mem.drop (cputime_size N))
    (decide (cputime_size N < 2 ^ 31)) (by simp)
  simp only [getCPUTimes, hn, hf, hc]
  rw [hb, hok, hfold, List.nil_append, lines_eq, strlen,
    cString_append_NUL _ _ (spaced_fmtLLU_no_NUL _)]
  congr 1

/-- In bounds with one memory, in bounds with any other. -/
theorem inBounds_mem (und : Nat → Int → Nat) (mem1 mem2 : List Char) (k : Kernel)
    (h : (getCPUTimes und mem1 k).inBounds = true) :
    (getCPUTimes und mem2 k).inBounds = true := by
  cases hn : k.hw_ncpu with
  | none => simp [getCPUTimes, hn]
  | some N =>
    cases hf : k.cputimer_freq with
    | none => simp [getCPUTimes, hn, hf]
    | some F =>
      cases hc : k.cputime with
      | none => simp [getCPUTimes, hn, hf, hc]
      | some cp =>
        have hN := inBounds_pos und mem1 k N F cp hn hf hc h
        rw [getCPUTimes_inBounds und mem1 k N F cp hn hN hf hc] at h
        rw [getCPUTimes_inBounds und mem2 k N F cp hn hN hf hc, h]

/-- A run of `Update` that is in bounds does not depend on what the memory held. -/
theorem Update_mem (pf : List Char → Option ℚ) (und : Nat → Int → Nat)
    (mem1 mem2 : List Char) (c : statCollector) (k : Kernel) (ch : List Metric)
    (h : (getCPUTimes und mem1 k).inBounds = true) :
    Update pf und mem1 c k ch = Update pf und mem2 c k ch := by
  cases hn : k.hw_ncpu with
  | none => simp [Update, getCPUTimes, hn]
  | some N =>
    cases hf : k.cputimer_freq with
    | none => simp [Update, getCPUTimes, hn, hf]
    | some F =>
      cases hc : k.cputime with
      | none => simp [Update, getCPUTimes, hn, hf, hc]
      | some cp =>
        have hN := inBounds_pos und mem1 k N F cp hn hf hc h
        rw [Update_eq_decode pf und mem1 c k ch N F cp hn hf hc,
          Update_eq_decode pf und mem2 c k ch N F cp hn hf hc,
          (getCPUTimes_ok und mem1 k N F cp hn hN hf hc).2,
          (getCPUTimes_ok und mem2 k N F cp hn hN hf hc).2]

/-- One call of `Update` leaves the collector as it was and appends to the
channel what it would send into an empty one. -/
theorem Update_append (pf : List Char → Option ℚ) (und : Nat → Int → Nat) (mem : List Char)
    (c : statCollector) (k : Kernel) (ch : List Metric) :
    Update pf und mem c k ch =
      ⟨c, ch ++ (Update pf und mem c k []).ch, (Update pf und mem c k []).err⟩ := by
  unfold Update
  simp only []
  split
  · simp
  · simp only [Update.decode]
    rw [loop_append]

theorem cp_t_small (cp : List kinfo_cputime)
    (hsmall : ∀ e ∈ cp, ∀ s, s < 5 → counter e s < 2 ^ 53) (i s : Nat) (hs : s < 5) :
    counter (cp_t cp i) s < 2 ^ 53 := by
  cases h : cp[i]? with
  | none =>
    have e : cp_t cp i = kinfo_zero := by simp [cp_t, List.getD, h]
    rw [e]
    interval_cases s <;> decide
  | some e =>
    rw [cp_t_eq cp i e h]
    exact hsmall e (List.getElem?_mem h) s hs

/-! ## Properties of `Update` -/

set_option maxRecDepth 4096 in
/-- C1, counterexample: two cores, frequency 100, every counter at
1000000000000 ticks. The three reads succeed and `getCPUTimes` returns 0, but
the text it writes takes 121 bytes with its NUL while 90 bytes are
allocated: the run is not in bounds, and nothing is guaranteed of what
`Update` does with it. -/
theorem Update_run_out_of_bounds :
    longKernel.hw_ncpu = some 2 ∧ longKernel.cputimer_freq = some 100 ∧
    (getCPUTimes (fun _ _ => 0) [] longKernel).rc = 0 ∧
    (GoString (getCPUTimes (fun _ _ => 0) [] longKernel).cputime).length + 1 = 121 ∧
    cputime_size 2 = 90 ∧
    (getCPUTimes (fun _ _ => 0) [] longKernel).inBounds = false := by
  refine ⟨by decide, by decide, by decide, by decide, by decide, by decide⟩

/-- C1 as amended: after a successful kernel query reporting `N ≥ 1` cores with
a frequency above zero, whose text stays inside the buffer allocated for it
(the string with its NUL is no longer than the `cputime_size N` bytes),
`Update` returns no error and sends exactly `5 * N` metrics; the metric at
position `j` carries the labels `cpu` followed by the decimal of `j / 5`, and
the element `j % 5` of user, nice, sys, interrupt, idle. Hence every pair of a
core and a state is carried by exactly one position, and no metric carries the
label `intr`. -/
theorem Update_emits_five_labelled_samples_per_core
    (pf : List Char → Option ℚ) (und : Nat → Int → Nat) (mem : List Char)
    (c : statCollector) (k : Kernel) (ch : List Metric) (N : Nat) (F : Int)
    (cp : List kinfo_cputime)
    (hpf : AcceptsDecimals pf) (hn : k.hw_ncpu = some N) (hN : 1 ≤ N)
    (hf : k.cputimer_freq = some F) (hF : 0 < F) (hc : k.cputime = some cp)
    (hfit : (getCPUTimes und mem k).inBounds = true) :
    (GoString (getCPUTimes und mem k).cputime).length + 1 ≤ cputime_size N ∧
    (Update pf und mem c k ch).err = none ∧
    ∃ out : List Metric, (Update pf und mem c k ch).ch = ch ++ out ∧ out.length = 5 * N ∧
      (∀ j, j < 5 * N → ∃ m mode, out[j]? = some m ∧
        ["user", "nice", "sys", "interrupt", "idle"][j % 5]? = some mode ∧
        m.labelValues = ["cpu" ++ toString (j / 5), mode]) ∧
      (∀ i s, i < N → s < 5 → ∃! j, j < 5 * N ∧
        (out[j]?).map Metric.labelValues =
          some ["cpu" ++ toString i, cpuFields.getD s ""]) ∧
      (∀ m ∈ out, "intr" ∉ m.labelValues) := by
  have _ := hF
  have hlen : (GoString (getCPUTimes und mem k).cputime).length + 1 ≤ cputime_size N := by
    rw [getCPUTimes_inBounds und mem k N F cp hn hN hf hc] at hfit
    rw [(getCPUTimes_ok und mem k N F cp hn hN hf hc).2, GoString, Option.getD_some]
    simp only [Bool.and_eq_true, decide_eq_true_eq] at hfit
    exact hfit.2
  have hU := Update_frame pf und mem c k ch N F cp hpf hn hN hf hc
  have hat : ∀ j, j < 5 * N → ∃ q : ℚ,
      (samplesFrom c 0 ((frame und F cp N).map (parsed pf)))[j]? =
        some (sample c j q) := by
    intro j hj
    have h := frame_sample pf c und F cp N (j / 5) (j % 5)
      (by omega) (Nat.mod_lt _ (by decide))
    have e : 5 * (j / 5) + j % 5 = j := Nat.div_add_mod j 5
    rw [e] at h
    exact ⟨_, h⟩
  refine ⟨hlen, by rw [hU], _, by rw [hU], ?_, ?_, ?_, ?_⟩
  · simp [samplesFrom_length, frame_length]
  · intro j hj
    obtain ⟨q, hq⟩ := hat j hj
    exact ⟨_, _, hq, cpuFields_getElem? _ (Nat.mod_lt _ (by decide)), rfl⟩
  · intro i s hi hs
    refine ⟨5 * i + s, ⟨by omega, ?_⟩, ?_⟩
    · obtain ⟨q, hq⟩ := hat (5 * i + s) (by omega)
      rw [hq]
      have e1 : (5 * i + s) / 5 = i := by omega
      have e2 : (5 * i + s) % 5 = s := by omega
      simp only [Option.map_some', sample_labelValues, e1, e2]
      rfl
    · rintro j ⟨hj, hl⟩
      obtain ⟨q, hq⟩ := hat j hj
      rw [hq] at hl
      simp only [Option.map_some', sample_labelValues, Option.some.injEq] at hl
      exact labels_injective hs hl
  · intro m hm
    obtain ⟨j, hj, hmj⟩ := List.mem_iff_getElem.1 hm
    have hj2 : j < 5 * N := by simpa [samplesFrom_length, frame_length] using hj
    obtain ⟨q, hq⟩ := hat j hj2
    rw [List.getElem?_eq_getElem hj, hmj] at hq
    have hm2 : m = sample c j q := Option.some.inj hq
    rw [hm2, sample_labelValues]
    intro hmem
    simp only [List.mem_cons, List.mem_singleton, List.not_mem_nil, or_false] at hmem
    rcases hmem with h | h
    · exact cpux_ne_intr _ h.symm
    · exact cpuFields_ne_intr _ (Nat.mod_lt _ (by decide)) h.symm

/-- C1 as amended, at the two-core scenario with stale bytes in memory. -/
theorem Update_emits_five_labelled_samples_per_core_witness :
    (GoString (getCPUTimes (fun _ _ => 0) "stale".toList scenario).cputime).length + 1 ≤
      cputime_size 2 ∧
    (Update parseDigits (fun _ _ => 0) "stale".toList (NewStatCollector "node")
      scenario []).err = none ∧
    ∃ out : List Metric,
      (Update parseDigits (fun _ _ => 0) "stale".toList (NewStatCollector "node")
        scenario []).ch = [] ++ out ∧
      out.length = 5 * 2 ∧
      (∀ j, j < 5 * 2 → ∃ m mode, out[j]? = some m ∧
        ["user", "nice", "sys", "interrupt", "idle"][j % 5]? = some mode ∧
        m.labelValues = ["cpu" ++ toString (j / 5), mode]) ∧
      (∀ i s, i < 2 → s < 5 → ∃! j, j < 5 * 2 ∧
        (out[j]?).map Metric.labelValues =
          some ["cpu" ++ toString i, cpuFields.getD s ""]) ∧
      (∀ m ∈ out, "intr" ∉ m.labelValues) :=
  Update_emits_five_labelled_samples_per_core parseDigits (fun _ _ => 0) "stale".toList
    (NewStatCollector "node") scenario [] 2 100 _ parseDigits_accepts rfl (by decide) rfl
    (by decide) rfl (by decide)

/-- C3: when one of the three kernel reads fails, `getCPUTimes` returns `-1`, and
`Update` returns the error "could not retrieve CPU times" with the channel as it
found it: no metric was sent. -/
theorem Update_retrieval_failure
    (pf : List Char → Option ℚ) (und : Nat → Int → Nat) (mem : List Char)
    (c : statCollector) (k : Kernel) (ch : List Metric)
    (h : k.hw_ncpu = none ∨ k.cputimer_freq = none ∨ k.cputime = none) :
    (getCPUTimes und mem k).1 = -1 ∧
    Update pf und mem c k ch =
      ⟨c, ch, some (GoError.New "could not retrieve CPU times")⟩ := by
  have hrc : (getCPUTimes und mem k).1 = -1 := by
    unfold getCPUTimes
    rcases h with h | h | h
    · simp [h]
    · cases k.hw_ncpu <;> simp [h]
    · cases k.hw_ncpu <;> cases k.cputimer_freq <;> simp [h]
  exact ⟨hrc, by simp [Update, hrc]⟩

/-- C3 at a kernel whose frequency read fails. -/
theorem Update_retrieval_failure_witness :
    (getCPUTimes (fun _ _ => 0) []
      { hw_ncpu := some 2, cputimer_freq := none, cputime := some [] }).1 = -1 ∧
    Update parseDigits (fun _ _ => 0) [] (NewStatCollector "node")
      { hw_ncpu := some 2, cputimer_freq := none, cputime := some [] } [] =
      ⟨NewStatCollector "node", [], some (GoError.New "could not retrieve CPU times")⟩ :=
  Update_retrieval_failure parseDigits (fun _ _ => 0) [] (NewStatCollector "node")
    { hw_ncpu := some 2, cputimer_freq := none, cputime := some [] } []
    (Or.inr (Or.inl rfl))

/-- C4: when the first token that does not parse sits at index `k`, the decode
loop of `Update` returns a non-nil error (the one of that token) and has sent
exactly `k` metrics: the one at position `j < k` carries the parsed value of
token `j` and the labels of position `j`. Nothing is sent for token `k` or for a
later token. -/
theorem Update_loop_stops_at_first_bad_token
    (pf : List Char → Option ℚ) (c : statCollector) (ts : List (List Char))
    (ch : List Metric) (k : Nat) (bad : List Char)
    (hk : ts[k]? = some bad) (hbad : pf bad = none)
    (hgood : ∀ j, j < k → ∃ t v, ts[j]? = some t ∧ pf t = some v) :
    (Update.loop pf c 0 ts ch).2 = some (GoError.NumError bad) ∧
    ∃ out : List Metric, (Update.loop pf c 0 ts ch).1 = ch ++ out ∧ out.length = k ∧
      ∀ j, j < k → ∃ t v m, ts[j]? = some t ∧ pf t = some v ∧ out[j]? = some m ∧
        m.value = v ∧ m.valueType = ValueType.CounterValue ∧ m.desc = c.cpu ∧
        m.labelValues = ["cpu" ++ toString (j / 5), cpuFields.getD (j % 5) ""] := by
  have hklt : k < ts.length := by
    rcases Nat.lt_or_ge k ts.length with h | h
    · exact h
    · rw [List.getElem?_eq_none h] at hk
      exact absurd hk (by simp)
  have hsplit : ts = ts.take k ++ bad :: ts.drop (k + 1) := by
    have hget : ts[k] = bad := by
      rw [List.getElem?_eq_getElem hklt] at hk
      exact Option.some.inj hk
    rw [← hget, ← List.drop_eq_getElem_cons hklt, List.take_append_drop]
  have hpre : ∀ v ∈ ts.take k, pf v = some ((pf v).getD 0) := by
    intro v hv
    obtain ⟨j, hj, hvj⟩ := List.mem_iff_getElem.1 hv
    have hjk : j < k := by
      have := hj
      simp only [List.length_take] at this
      omega
    obtain ⟨t, q, ht, hq⟩ := hgood j hjk
    have e : v = t := by
      rw [List.getElem_take] at hvj
      rw [List.getElem?_eq_getElem (by omega)] at ht
      rw [← hvj]
      exact Option.some.inj ht
    rw [e, hq]
    rfl
  have hloop := loop_fail pf c (fun t => (pf t).getD 0) bad (ts.drop (k + 1)) hbad
    (ts.take k) 0 ch hpre
  rw [← hsplit] at hloop
  refine ⟨by rw [hloop], _, by rw [hloop], ?_, ?_⟩
  · simp [samplesFrom_length]
    omega
  · intro j hj
    obtain ⟨t, q, ht, hq⟩ := hgood j hj
    refine ⟨t, q, sample c j q, ht, hq, ?_, rfl, rfl, rfl, rfl⟩
    rw [samplesFrom_getElem?, List.getElem?_map, List.getElem?_take_of_lt hj, ht]
    simp [hq]

/-- C4 at the tokens `7`, `8`, `12x`, `9`: the token at index 2 does not parse. -/
theorem Update_loop_stops_at_first_bad_token_witness :
    (Update.loop parseDigits (NewStatCollector "node") 0
      ["7".toList, "8".toList, "12x".toList, "9".toList] []).2 =
        some (GoError.NumError "12x".toList) ∧
    ∃ out : List Metric,
      (Update.loop parseDigits (NewStatCollector "node") 0
        ["7".toList, "8".toList, "12x".toList, "9".toList] []).1 = [] ++ out ∧
      out.length = 2 ∧
      ∀ j, j < 2 → ∃ t v m,
        ["7".toList, "8".toList, "12x".toList, "9".toList][j]? = some t ∧
        parseDigits t = some v ∧ out[j]? = some m ∧
        m.value = v ∧ m.valueType = ValueType.CounterValue ∧
        m.desc = (NewStatCollector "node").cpu ∧
        m.labelValues = ["cpu" ++ toString (j / 5), cpuFields.getD (j % 5) ""] :=
  Update_loop_stops_at_first_bad_token parseDigits (NewStatCollector "node")
    ["7".toList, "8".toList, "12x".toList, "9".toList] [] 2 "12x".toList rfl (by decide)
    (by
      intro j hj
      interval_cases j
      · exact ⟨"7".toList, 7, rfl, by decide⟩
      · exact ⟨"8".toList, 8, rfl, by decide⟩)

/-- C2, counterexample: in the scenario the text `getCPUTimes` writes holds
whole numbers only, `0` where the claim expects 0.1 or 0.05, `1` for 1.5 and
`94` for 94.45, and these are the ten values `Update` sends. -/
theorem scenario_values_are_truncated :
    (getCPUTimes (fun _ _ => 0) [] scenario).2 = some "5 0 2 0 93 4 0 1 0 94 ".toList ∧
    (getCPUTimes (fun _ _ => 0) [] scenario).inBounds = true ∧
    (Update parseDigits (fun _ _ => 0) [] (NewStatCollector "node") scenario []).err = none ∧
    (Update parseDigits (fun _ _ => 0) [] (NewStatCollector "node") scenario []).ch.map
      Metric.value = [5, 0, 2, 0, 93, 4, 0, 1, 0, 94] ∧
    ([5, 0, 2, 0, 93, 4, 0, 1, 0, 94] : List ℚ) ≠
      [5, 0, 2, 1 / 10, 93, 4, 0, 3 / 2, 1 / 20, 9445 / 100] := by
  refine ⟨by decide, by decide, by decide, by decide, ?_⟩
  intro h
  simp only [List.cons.injEq] at h
  have h3 := h.2.2.2.1
  norm_num at h3

/-- C2 as amended: after a successful query of `N ≥ 1` cores whose text stays
inside the buffer, with a frequency `0 < F < 2 ^ 53` and counters below
`2 ^ 53` (numbers a double holds exactly), the metric sent for core `i` and
state `s`, at position `5 * i + s`, has the value `t / F` rounded down to a
whole number of seconds, `t` being the raw counter the kernel reported for that
core and state; in the scenario the ten values are
5, 0, 2, 0, 93, 4, 0, 1, 0, 94 in that order. -/
theorem Update_value_is_truncated_quotient
    (pf : List Char → Option ℚ) (und : Nat → Int → Nat) (mem : List Char)
    (c : statCollector) (k : Kernel) (ch : List Metric) (N F : Nat)
    (cp : List kinfo_cputime)
    (hpf : AcceptsDecimals pf) (hex : ExactDecimals pf)
    (hn : k.hw_ncpu = some N) (hN : 1 ≤ N)
    (hf : k.cputimer_freq = some (F : Int)) (hF : 0 < F) (hF53 : F < 2 ^ 53)
    (hc : k.cputime = some cp)
    (hfit : (getCPUTimes und mem k).inBounds = true)
    (hsmall : ∀ e ∈ cp, ∀ s, s < 5 → counter e s < 2 ^ 53) :
    (∀ i e s, i < N → cp[i]? = some e → s < 5 →
      ∃ m, (Update pf und mem c k ch).ch[ch.length + (5 * i + s)]? = some m ∧
        m.labelValues = ["cpu" ++ toString i, cpuFields.getD s ""] ∧
        m.value = ((counter e s / F : Nat) : ℚ)) ∧
    ((Update pf und mem c scenario ch).ch.drop ch.length).map Metric.value =
      [5, 0, 2, 0, 93, 4, 0, 1, 0, 94] := by
  have _ := hfit
  constructor
  · intro i e s hi he hs
    rw [Update_frame pf und mem c k ch N F cp hpf hn hN hf hc]
    refine ⟨sample c (5 * i + s) (parsed pf (ticksToSeconds und (counter (cp_t cp i) s) F)),
      ?_, ?_, ?_⟩
    · show (ch ++ _)[ch.length + (5 * i + s)]? = _
      rw [List.getElem?_append_right (by omega)]
      have e : ch.length + (5 * i + s) - ch.length = 5 * i + s := by omega
      rw [e]
      exact frame_sample pf c und F cp N i s hi hs
    · have e1 : (5 * i + s) / 5 = i := by omega
      have e2 : (5 * i + s) % 5 = s := by omega
      rw [sample_labelValues, e1, e2]
      rfl
    · rw [sample_value, cp_t_eq cp i e he,
        parsed_ticksToSeconds pf hex und _ F (hsmall e (List.getElem?_mem he) s hs) hF hF53]
  · rw [Update_frame pf und mem c scenario ch 2 100 _ hpf rfl (by decide) rfl rfl]
    show ((ch ++ _).drop ch.length).map Metric.value = _
    rw [List.drop_left, samplesFrom_values]
    have e : frame und 100 [⟨500, 0, 200, 10, 9300⟩, ⟨400, 0, 150, 5, 9445⟩] 2 =
        [5, 0, 2, 0, 93, 4, 0, 1, 0, 94] := by
      have h1 : ∀ t : Nat, t < 2 ^ 53 → ticksToSeconds und t 100 = t / 100 := fun t ht =>
        ticksToSeconds_exact und t 100 ht (by decide) (by decide)
      simp only [frame, lineValues, cp_t, List.getD_cons_zero, List.getD_cons_succ,
        List.nil_append, List.cons_append]
      rw [h1 500 (by decide), h1 0 (by decide), h1 200 (by decide), h1 10 (by decide),
        h1 9300 (by decide), h1 400 (by decide), h1 150 (by decide), h1 5 (by decide),
        h1 9445 (by decide)]
    rw [e]
    simp only [List.map_cons, List.map_nil]
    rw [parsed_exact pf hex 5 (by decide), parsed_exact pf hex 0 (by decide),
      parsed_exact pf hex 2 (by decide), parsed_exact pf hex 93 (by decide),
      parsed_exact pf hex 4 (by decide), parsed_exact pf hex 1 (by decide),
      parsed_exact pf hex 94 (by decide)]
    norm_num

/-- C2 as amended, at a one-core kernel state. -/
theorem Update_value_is_truncated_quotient_witness :
    (∀ i e s, i < 1 → [(⟨500, 0, 250, 10, 9300⟩ : kinfo_cputime)][i]? = some e → s < 5 →
      ∃ m, (Update parseDigits (fun _ _ => 0) [] (NewStatCollector "node")
        { hw_ncpu := some 1, cputimer_freq := some ((100 : Nat) : Int),
          cputime := some [⟨500, 0, 250, 10, 9300⟩] } []).ch[([] : List Metric).length +
            (5 * i + s)]? = some m ∧
        m.labelValues = ["cpu" ++ toString i, cpuFields.getD s ""] ∧
        m.value = ((counter e s / 100 : Nat) : ℚ)) ∧
    ((Update parseDigits (fun _ _ => 0) [] (NewStatCollector "node") scenario []).ch.drop
      ([] : List Metric).length).map Metric.value = [5, 0, 2, 0, 93, 4, 0, 1, 0, 94] :=
  Update_value_is_truncated_quotient parseDigits (fun _ _ => 0) [] (NewStatCollector "node")
    { hw_ncpu := some 1, cputimer_freq := some ((100 : Nat) : Int),
      cputime := some [⟨500, 0, 250, 10, 9300⟩] } [] 1 100 _ parseDigits_accepts
    parseDigits_exact rfl (by decide) rfl (by decide) (by decide) rfl (by decide) (by decide)

/-- C5, counterexample: the kernel reports zero CPUs and the memory at the
address `getCPUTimes` stores holds the string `1 2 3 4`. The response `Update`
decodes has four tokens, not `5 * 0`, and yet `Update` returns no error and
sends four metrics. -/
theorem Update_decodes_stale_tokens :
    zeroCpuKernel.hw_ncpu = some 0 ∧
    (getCPUTimes (fun _ _ => 0) "1 2 3 4".toList zeroCpuKernel).rc = 0 ∧
    Split (TrimSpace (GoString (getCPUTimes (fun _ _ => 0) "1 2 3 4".toList
      zeroCpuKernel).cputime)) ' ' = ["1".toList, "2".toList, "3".toList, "4".toList] ∧
    (Update parseDigits (fun _ _ => 0) "1 2 3 4".toList (NewStatCollector "node")
      zeroCpuKernel []).err = none ∧
    (Update parseDigits (fun _ _ => 0) "1 2 3 4".toList (NewStatCollector "node")
      zeroCpuKernel []).ch.map Metric.value = [1, 2, 3, 4] ∧
    (Update parseDigits (fun _ _ => 0) "1 2 3 4".toList (NewStatCollector "node")
      zeroCpuKernel []).ch.map Metric.labelValues =
        [["cpu0", "user"], ["cpu0", "nice"], ["cpu0", "sys"], ["cpu0", "interrupt"]] := by
  refine ⟨by decide, by decide, by decide, by decide, by decide, by decide⟩

/-- C5 as amended: after three successful reads that report `N ≥ 1` cores the
response `Update` decodes holds exactly `5 * N` tokens, so a frame one token
short does not reach it. `Update` itself makes no comparison of the number of
tokens with the CPU count: it returns no error exactly when every token
parses, then having sent one metric per token, and an error it returns is the
parse error of a token. -/
theorem Update_has_no_token_count_check
    (pf : List Char → Option ℚ) (und : Nat → Int → Nat) (mem : List Char)
    (c : statCollector) (k : Kernel) (ch : List Metric) (N : Nat) (F : Int)
    (cp : List kinfo_cputime)
    (hn : k.hw_ncpu = some N) (hf : k.cputimer_freq = some F) (hc : k.cputime = some cp) :
    (1 ≤ N →
      (Split (TrimSpace (GoString (getCPUTimes und mem k).cputime)) ' ').length = 5 * N) ∧
    ((Update pf und mem c k ch).err = none ↔
      ∀ t ∈ Split (TrimSpace (GoString (getCPUTimes und mem k).cputime)) ' ',
        ∃ v, pf t = some v) ∧
    ((Update pf und mem c k ch).err = none →
      ∃ out : List Metric, (Update pf und mem c k ch).ch = ch ++ out ∧
        out.length =
          (Split (TrimSpace (GoString (getCPUTimes und mem k).cputime)) ' ').length) ∧
    (∀ e, (Update pf und mem c k ch).err = some e →
      ∃ bad ∈ Split (TrimSpace (GoString (getCPUTimes und mem k).cputime)) ' ',
        pf bad = none ∧ e = GoError.NumError bad) := by
  have hU := Update_eq_decode pf und mem c k ch N F cp hn hf hc
  refine ⟨?_, ?_, ?_, ?_⟩
  · intro hN
    have hne : (frame und F cp N).map fmtLLU ≠ [] := by
      intro h0
      have := congrArg List.length h0
      simp [frame_length] at this
      omega
    rw [(getCPUTimes_ok und mem k N F cp hn hN hf hc).2, GoString, Option.getD_some,
      Split_TrimSpace_spaced _ hne (by
        intro t ht
        obtain ⟨n, _, rfl⟩ := List.mem_map.1 ht
        exact fmtLLU_isToken n)]
    simp [frame_length]
  · rw [hU]
    exact loop_none_iff pf c _ 0 ch
  · rw [hU]
    exact loop_length pf c _ 0 ch
  · rw [hU]
    exact loop_some pf c _ 0 ch

/-- C5 as amended, at the two-core scenario. -/
theorem Update_has_no_token_count_check_witness :
    (1 ≤ 2 →
      (Split (TrimSpace (GoString (getCPUTimes (fun _ _ => 0) [] scenario).cputime))
        ' ').length = 5 * 2) ∧
    ((Update parseDigits (fun _ _ => 0) [] (NewStatCollector "node") scenario []).err = none ↔
      ∀ t ∈ Split (TrimSpace (GoString (getCPUTimes (fun _ _ => 0) [] scenario).cputime)) ' ',
        ∃ v, parseDigits t = some v) ∧
    ((Update parseDigits (fun _ _ => 0) [] (NewStatCollector "node") scenario []).err = none →
      ∃ out : List Metric,
        (Update parseDigits (fun _ _ => 0) [] (NewStatCollector "node") scenario []).ch =
          [] ++ out ∧
        out.length =
          (Split (TrimSpace (GoString (getCPUTimes (fun _ _ => 0) [] scenario).cputime))
            ' ').length) ∧
    (∀ e, (Update parseDigits (fun _ _ => 0) [] (NewStatCollector "node") scenario []).err =
        some e →
      ∃ bad ∈ Split (TrimSpace (GoString (getCPUTimes (fun _ _ => 0) [] scenario).cputime)) ' ',
        parseDigits bad = none ∧ e = GoError.NumError bad) :=
  Update_has_no_token_count_check parseDigits (fun _ _ => 0) [] (NewStatCollector "node")
    scenario [] 2 100 _ rfl rfl rfl

/-- C6, counterexample: the kernel reports zero CPUs and the string at the
address `getCPUTimes` stores is empty. `Update` sends nothing and returns the
parse error of the empty token, not `nil`. -/
theorem Update_zero_cpus_parse_error :
    zeroCpuKernel.hw_ncpu = some 0 ∧
    getCPUTimes (fun _ _ => 0) [] zeroCpuKernel = ⟨0, some [], false⟩ ∧
    Update parseDigits (fun _ _ => 0) [] (NewStatCollector "node") zeroCpuKernel [] =
      ⟨NewStatCollector "node", [], some (GoError.NumError [])⟩ ∧
    (Update parseDigits (fun _ _ => 0) [] (NewStatCollector "node") zeroCpuKernel []).err ≠
      none := by
  refine ⟨by decide, by decide, by decide, by decide⟩

/-- C6 as amended: when the three reads succeed and report zero CPUs,
`getCPUTimes` returns 0 with a buffer of zero bytes into which it has written
nothing, so the string `Update` decodes is whatever the memory at that address
holds. `Update` never ends there with no metric sent and no error: it
returns a parse error or has sent at least one metric. When that string is
empty and the parser rejects the empty token, it sends nothing and returns
the parse error of the empty token. -/
theorem Update_zero_cpus_never_clean
    (pf : List Char → Option ℚ) (und : Nat → Int → Nat) (mem : List Char)
    (c : statCollector) (k : Kernel) (ch : List Metric) (F : Int) (cp : List kinfo_cputime)
    (hn : k.hw_ncpu = some 0) (hf : k.cputimer_freq = some F) (hc : k.cputime = some cp) :
    getCPUTimes und mem k = ⟨0, some (cString mem), false⟩ ∧
    cputime_size 0 = 0 ∧
    ((Update pf und mem c k ch).err ≠ none ∨
      ∃ m out, (Update pf und mem c k ch).ch = ch ++ m :: out) ∧
    (cString mem = [] → pf [] = none →
      Update pf und mem c k ch = ⟨c, ch, some (GoError.NumError [])⟩) := by
  have hg := getCPUTimes_zero und mem k F cp hn hf hc
  have hU := Update_eq_decode pf und mem c k ch 0 F cp hn hf hc
  refine ⟨hg, by decide, ?_, ?_⟩
  · rw [hU]
    exact loop_progress pf c _ 0 ch (Split_ne_nil _ _)
  · intro hm hpf
    have hs : Split (TrimSpace []) ' ' = [[]] := by decide
    rw [hU, hg]
    simp [Update.decode, GoString, hm, hs, Update.loop, hpf]

/-- C6 as amended, at the kernel state `zeroCpuKernel` with the stale bytes `zB` in memory. -/
theorem Update_zero_cpus_never_clean_witness :
    getCPUTimes (fun _ _ => 0) "zB".toList zeroCpuKernel =
      ⟨0, some (cString "zB".toList), false⟩ ∧
    cputime_size 0 = 0 ∧
    ((Update parseDigits (fun _ _ => 0) "zB".toList (NewStatCollector "node")
        zeroCpuKernel []).err ≠ none ∨
      ∃ m out, (Update parseDigits (fun _ _ => 0) "zB".toList (NewStatCollector "node")
        zeroCpuKernel []).ch = [] ++ m :: out) ∧
    (cString "zB".toList = [] → parseDigits [] = none →
      Update parseDigits (fun _ _ => 0) "zB".toList (NewStatCollector "node")
        zeroCpuKernel [] = ⟨NewStatCollector "node", [], some (GoError.NumError [])⟩) :=
  Update_zero_cpus_never_clean parseDigits (fun _ _ => 0) "zB".toList
    (NewStatCollector "node") zeroCpuKernel [] 100 [] rfl rfl rfl

/-- C7, counterexample: the three reads succeed and the frequency read is 0;
`getCPUTimes` returns 0, not -1, and `Update` does not return the retrieval
error. The return value does not depend on what the conversion of the
quotient yields, taken as 0 here. -/
theorem getCPUTimes_zero_frequency_returns_zero :
    zeroFreqKernel.cputimer_freq = some 0 ∧
    (getCPUTimes (fun _ _ => 0) [] zeroFreqKernel).1 = 0 ∧
    (Update parseDigits (fun _ _ => 0) [] (NewStatCollector "node") zeroFreqKernel []).err ≠
      some (GoError.New "could not retrieve CPU times") := by
  refine ⟨by decide, by decide, by decide⟩

/-- C7 as amended: `getCPUTimes` does not look at the frequency it read. When
the three reads succeed it returns 0 whatever the frequency, 0 included, and
`Update` does not return the error "could not retrieve CPU times". -/
theorem getCPUTimes_ignores_frequency
    (pf : List Char → Option ℚ) (und : Nat → Int → Nat) (mem : List Char)
    (c : statCollector) (k : Kernel) (ch : List Metric) (N : Nat) (F : Int)
    (cp : List kinfo_cputime)
    (hn : k.hw_ncpu = some N) (hf : k.cputimer_freq = some F) (hc : k.cputime = some cp) :
    (getCPUTimes und mem k).1 = 0 ∧
    (Update pf und mem c k ch).err ≠ some (GoError.New "could not retrieve CPU times") := by
  refine ⟨getCPUTimes_rc und mem k N F cp hn hf hc, ?_⟩
  rw [Update_eq_decode pf und mem c k ch N F cp hn hf hc]
  exact loop_err pf c _ 0 ch _

/-- C7 as amended, at the kernel state `zeroFreqKernel`, whose frequency is 0. -/
theorem getCPUTimes_ignores_frequency_witness :
    (getCPUTimes (fun _ _ => 0) [] zeroFreqKernel).1 = 0 ∧
    (Update parseDigits (fun _ _ => 0) [] (NewStatCollector "node") zeroFreqKernel []).err ≠
      some (GoError.New "could not retrieve CPU times") :=
  getCPUTimes_ignores_frequency parseDigits (fun _ _ => 0) [] (NewStatCollector "node")
    zeroFreqKernel [] 1 0 _ rfl rfl rfl

/-- C8, counterexample: two consecutive cycles over an unchanged kernel state,
three successful reads reporting zero CPUs; only the memory `malloc` hands out
differs, empty at the first cycle and holding `zB` at the second. The first
cycle returns the parse error of the empty token, the second, run on the
collector and channel the first left, the parse error of the token `zB`. -/
theorem Update_zero_cpus_depends_on_memory :
    (Update parseDigits (fun _ _ => 0) [] (NewStatCollector "node") zeroCpuKernel []).err =
      some (GoError.NumError []) ∧
    (Update parseDigits (fun _ _ => 0) "zB".toList
      (Update parseDigits (fun _ _ => 0) [] (NewStatCollector "node")
        zeroCpuKernel []).collector
      zeroCpuKernel
      (Update parseDigits (fun _ _ => 0) [] (NewStatCollector "node")
        zeroCpuKernel []).ch).err = some (GoError.NumError "zB".toList) ∧
    (Update parseDigits (fun _ _ => 0) "zB".toList
      (Update parseDigits (fun _ _ => 0) [] (NewStatCollector "node")
        zeroCpuKernel []).collector
      zeroCpuKernel
      (Update parseDigits (fun _ _ => 0) [] (NewStatCollector "node")
        zeroCpuKernel []).ch).err ≠
      (Update parseDigits (fun _ _ => 0) [] (NewStatCollector "node") zeroCpuKernel []).err := by
  refine ⟨by decide, by decide, by decide⟩

/-- C8 as amended: two consecutive calls of `Update` on the same kernel state,
of which the first stays in bounds (a read fails, or at least one CPU is
reported and the text fits the buffer), end with the same error and send the
same metrics, labels and values alike, whatever the memory `malloc` hands to
each call; the second call stays in bounds too, and the collector, whose only
field is the descriptor, is after each call what it was before. -/
theorem Update_twice_same_result
    (pf : List Char → Option ℚ) (und : Nat → Int → Nat) (mem1 mem2 : List Char)
    (c : statCollector) (k : Kernel) (ch : List Metric)
    (hfit : (getCPUTimes und mem1 k).inBounds = true) :
    (getCPUTimes und mem2 k).inBounds = true ∧
    (Update pf und mem1 c k ch).collector = c ∧
    (Update pf und mem2 (Update pf und mem1 c k ch).collector k
      (Update pf und mem1 c k ch).ch).collector = c ∧
    (Update pf und mem2 (Update pf und mem1 c k ch).collector k
      (Update pf und mem1 c k ch).ch).err = (Update pf und mem1 c k ch).err ∧
    ∃ out : List Metric, (Update pf und mem1 c k ch).ch = ch ++ out ∧
      (Update pf und mem2 (Update pf und mem1 c k ch).collector k
        (Update pf und mem1 c k ch).ch).ch = (ch ++ out) ++ out := by
  have h1 := Update_append pf und mem1 c k ch
  have h2 := Update_append pf und mem1 c k (ch ++ (Update pf und mem1 c k []).ch)
  have hm : ∀ ch2, Update pf und mem2 c k ch2 = Update pf und mem1 c k ch2 := fun ch2 =>
    (Update_mem pf und mem1 mem2 c k ch2 hfit).symm
  refine ⟨inBounds_mem und mem1 mem2 k hfit, ?_, ?_, ?_,
    (Update pf und mem1 c k []).ch, ?_, ?_⟩
  · rw [h1]
  · rw [h1]
    show (Update pf und mem2 c k (ch ++ (Update pf und mem1 c k []).ch)).collector = c
    rw [hm, h2]
  · rw [h1]
    show (Update pf und mem2 c k (ch ++ (Update pf und mem1 c k []).ch)).err =
      (Update pf und mem1 c k []).err
    rw [hm, h2]
  · rw [h1]
  · rw [h1]
    show (Update pf und mem2 c k (ch ++ (Update pf und mem1 c k []).ch)).ch = _
    rw [hm, h2]

/-- C8 as amended, at the two-core scenario, the first call on zeroed memory
and the second on memory that holds stale bytes. -/
theorem Update_twice_same_result_witness :
    (getCPUTimes (fun _ _ => 0) "93 stale".toList scenario).inBounds = true ∧
    (Update parseDigits (fun _ _ => 0) [] (NewStatCollector "node") scenario []).collector =
      NewStatCollector "node" ∧
    (Update parseDigits (fun _ _ => 0) "93 stale".toList
      (Update parseDigits (fun _ _ => 0) [] (NewStatCollector "node") scenario []).collector
      scenario
      (Update parseDigits (fun _ _ => 0) [] (NewStatCollector "node") scenario []).ch).collector =
      NewStatCollector "node" ∧
    (Update parseDigits (fun _ _ => 0) "93 stale".toList
      (Update parseDigits (fun _ _ => 0) [] (NewStatCollector "node") scenario []).collector
      scenario
      (Update parseDigits (fun _ _ => 0) [] (NewStatCollector "node") scenario []).ch).err =
      (Update parseDigits (fun _ _ => 0) [] (NewStatCollector "node") scenario []).err ∧
    ∃ out : List Metric,
      (Update parseDigits (fun _ _ => 0) [] (NewStatCollector "node") scenario []).ch =
        [] ++ out ∧
      (Update parseDigits (fun _ _ => 0) "93 stale".toList
        (Update parseDigits (fun _ _ => 0) [] (NewStatCollector "node") scenario []).collector
        scenario
        (Update parseDigits (fun _ _ => 0) [] (NewStatCollector "node") scenario []).ch).ch =
        ([] ++ out) ++ out :=
  Update_twice_same_result parseDigits (fun _ _ => 0) [] "93 stale".toList
    (NewStatCollector "node") scenario [] (by decide)

/-- C9, counterexample: one core, frequency 1000, every counter at
4000000000000 ticks, numbers a double holds exactly, with exact quotients.
The three reads succeed and `getCPUTimes` returns 0, but the text it writes
takes 56 bytes with its NUL while 45 bytes are allocated: the run is not in
bounds, and nothing is guaranteed of the metrics `Update` sends. -/
theorem Update_exact_values_out_of_bounds :
    exactLongKernel.hw_ncpu = some 1 ∧ exactLongKernel.cputimer_freq = some 1000 ∧
    (4000000000000 : Nat) < 2 ^ 53 ∧
    (getCPUTimes (fun _ _ => 0) [] exactLongKernel).rc = 0 ∧
    (getCPUTimes (fun _ _ => 0) [] exactLongKernel).cputime =
      some "4000000000 4000000000 4000000000 4000000000 4000000000 ".toList ∧
    cputime_size 1 = 45 ∧
    (getCPUTimes (fun _ _ => 0) [] exactLongKernel).inBounds = false := by
  refine ⟨by decide, by decide, by decide, by decide, by decide, by decide, by decide⟩

/-- C9 as amended: after a successful query of `N ≥ 1` cores whose text stays
inside the buffer, with a frequency `0 < F < 2 ^ 53` and counters below
`2 ^ 53` (numbers a double holds exactly), the metric labelled with core `i`
and a mode has the whole-number value `⌊c / F⌋`, where `c` is the `cp_user`,
`cp_nice`, `cp_sys`, `cp_intr` or `cp_idle` counter the kernel reported for
that core, for the mode user, nice, sys, interrupt or idle; such a metric is
sent for every core and mode; every value sent is a natural number of
seconds, and a counter below `F` is reported as 0. -/
theorem Update_values_are_whole_seconds
    (pf : List Char → Option ℚ) (und : Nat → Int → Nat) (mem : List Char)
    (c : statCollector) (k : Kernel) (ch : List Metric) (N F : Nat)
    (cp : List kinfo_cputime)
    (hpf : AcceptsDecimals pf) (hex : ExactDecimals pf)
    (hn : k.hw_ncpu = some N) (hN : 1 ≤ N)
    (hf : k.cputimer_freq = some (F : Int)) (hF : 0 < F) (hF53 : F < 2 ^ 53)
    (hc : k.cputime = some cp)
    (hfit : (getCPUTimes und mem k).inBounds = true)
    (hsmall : ∀ e ∈ cp, ∀ s, s < 5 → counter e s < 2 ^ 53) :
    ∃ out : List Metric, (Update pf und mem c k ch).ch = ch ++ out ∧
      (∀ i e, i < N → cp[i]? = some e → ∀ m ∈ out,
        (m.labelValues = ["cpu" ++ toString i, "user"] →
          m.value = ((⌊(e.cp_user : ℚ) / (F : ℚ)⌋₊ : Nat) : ℚ)) ∧
        (m.labelValues = ["cpu" ++ toString i, "nice"] →
          m.value = ((⌊(e.cp_nice : ℚ) / (F : ℚ)⌋₊ : Nat) : ℚ)) ∧
        (m.labelValues = ["cpu" ++ toString i, "sys"] →
          m.value = ((⌊(e.cp_sys : ℚ) / (F : ℚ)⌋₊ : Nat) : ℚ)) ∧
        (m.labelValues = ["cpu" ++ toString i, "interrupt"] →
          m.value = ((⌊(e.cp_intr : ℚ) / (F : ℚ)⌋₊ : Nat) : ℚ)) ∧
        (m.labelValues = ["cpu" ++ toString i, "idle"] →
          m.value = ((⌊(e.cp_idle : ℚ) / (F : ℚ)⌋₊ : Nat) : ℚ))) ∧
      (∀ i s, i < N → s < 5 →
        ∃ m ∈ out, m.labelValues = ["cpu" ++ toString i, cpuFields.getD s ""]) ∧
      (∀ m ∈ out, ∃ n : Nat, m.value = (n : ℚ)) ∧
      (∀ i e s, i < N → cp[i]? = some e → s < 5 → counter e s < F →
        ∀ m ∈ out, m.labelValues = ["cpu" ++ toString i, cpuFields.getD s ""] →
          m.value = 0) := by
  have _ := hfit
  have hU := Update_frame pf und mem c k ch N F cp hpf hn hN hf hc
  have hval : ∀ m ∈ samplesFrom c 0 ((frame und F cp N).map (parsed pf)),
      ∀ i e s, cp[i]? = some e → s < 5 → m.labelValues = [cpux i, cpuFields.getD s ""] →
        m.value = ((counter e s / F : Nat) : ℚ) ∧
        m.value = ((⌊((counter e s : Nat) : ℚ) / (F : ℚ)⌋₊ : Nat) : ℚ) := by
    intro m hm i e s he hs hl
    have h := frame_value_of_labels pf c und F cp N m hm i s hs hl
    rw [cp_t_eq cp i e he,
      parsed_ticksToSeconds pf hex und _ F (hsmall e (List.getElem?_mem he) s hs) hF hF53] at h
    exact ⟨h, by rw [h, Nat.floor_div_eq_div]⟩
  refine ⟨_, by rw [hU], ?_, ?_, ?_, ?_⟩
  · intro i e _ he m hm
    exact ⟨fun hl => (hval m hm i e 0 he (by decide) hl).2,
      fun hl => (hval m hm i e 1 he (by decide) hl).2,
      fun hl => (hval m hm i e 2 he (by decide) hl).2,
      fun hl => (hval m hm i e 3 he (by decide) hl).2,
      fun hl => (hval m hm i e 4 he (by decide) hl).2⟩
  · intro i s hi hs
    have h := frame_sample pf c und F cp N i s hi hs
    refine ⟨_, List.getElem?_mem h, ?_⟩
    have e1 : (5 * i + s) / 5 = i := by omega
    have e2 : (5 * i + s) % 5 = s := by omega
    rw [sample_labelValues, e1, e2]
    rfl
  · intro m hm
    obtain ⟨j, hj, hmj⟩ := List.mem_iff_getElem.1 hm
    have hj2 : j < 5 * N := by simpa [samplesFrom_length, frame_length] using hj
    have h := frame_sample pf c und F cp N (j / 5) (j % 5) (by omega) (Nat.mod_lt _ (by decide))
    have e : 5 * (j / 5) + j % 5 = j := Nat.div_add_mod j 5
    rw [e, List.getElem?_eq_getElem hj, hmj] at h
    refine ⟨counter (cp_t cp (j / 5)) (j % 5) / F, ?_⟩
    rw [Option.some.inj h, sample_value, parsed_ticksToSeconds pf hex und _ F
      (cp_t_small cp hsmall (j / 5) (j % 5) (Nat.mod_lt _ (by decide))) hF hF53]
  · intro i e s _ he hs hlt m hm hl
    rw [(hval m hm i e s he hs hl).1, Nat.div_eq_of_lt hlt]
    simp

/-- C9 as amended, at the two-core scenario. -/
theorem Update_values_are_whole_seconds_witness :
    ∃ out : List Metric,
      (Update parseDigits (fun _ _ => 0) [] (NewStatCollector "node") scenario []).ch =
        [] ++ out ∧
      (∀ i e, i < 2 →
        [(⟨500, 0, 200, 10, 9300⟩ : kinfo_cputime), ⟨400, 0, 150, 5, 9445⟩][i]? = some e →
        ∀ m ∈ out,
        (m.labelValues = ["cpu" ++ toString i, "user"] →
          m.value = ((⌊(e.cp_user : ℚ) / ((100 : Nat) : ℚ)⌋₊ : Nat) : ℚ)) ∧
        (m.labelValues = ["cpu" ++ toString i, "nice"] →
          m.value = ((⌊(e.cp_nice : ℚ) / ((100 : Nat) : ℚ)⌋₊ : Nat) : ℚ)) ∧
        (m.labelValues = ["cpu" ++ toString i, "sys"] →
          m.value = ((⌊(e.cp_sys : ℚ) / ((100 : Nat) : ℚ)⌋₊ : Nat) : ℚ)) ∧
        (m.labelValues = ["cpu" ++ toString i, "interrupt"] →
          m.value = ((⌊(e.cp_intr : ℚ) / ((100 : Nat) : ℚ)⌋₊ : Nat) : ℚ)) ∧
        (m.labelValues = ["cpu" ++ toString i, "idle"] →
          m.value = ((⌊(e.cp_idle : ℚ) / ((100 : Nat) : ℚ)⌋₊ : Nat) : ℚ))) ∧
      (∀ i s, i < 2 → s < 5 →
        ∃ m ∈ out, m.labelValues = ["cpu" ++ toString i, cpuFields.getD s ""]) ∧
      (∀ m ∈ out, ∃ n : Nat, m.value = (n : ℚ)) ∧
      (∀ i e s, i < 2 →
        [(⟨500, 0, 200, 10, 9300⟩ : kinfo_cputime), ⟨400, 0, 150, 5, 9445⟩][i]? = some e →
        s < 5 → counter e s < 100 →
        ∀ m ∈ out, m.labelValues = ["cpu" ++ toString i, cpuFields.getD s ""] →
          m.value = 0) :=
  Update_values_are_whole_seconds parseDigits (fun _ _ => 0) [] (NewStatCollector "node")
    scenario [] 2 100 _ parseDigits_accepts parseDigits_exact rfl (by decide) rfl (by decide)
    (by decide) rfl (by decide) (by decide)

/-- C10, the code at a core whose five values have ten digits each: the text
`getCPUTimes` writes takes 55 bytes and its terminating NUL one more, 56 in
all, while the buffer allocated for one core has `cputime_size 1 = 45` bytes. -/
theorem getCPUTimes_text_exceeds_buffer :
    (getCPUTimes (fun _ _ => 0) [] wideKernel).2 =
      some "1000000000 1000000000 1000000000 1000000000 1000000000 ".toList ∧
    (GoString (getCPUTimes (fun _ _ => 0) [] wideKernel).2).length + 1 = 56 ∧
    cputime_size 1 = 45 ∧
    cputime_size 1 < (GoString (getCPUTimes (fun _ _ => 0) [] wideKernel).2).length + 1 ∧
    (getCPUTimes (fun _ _ => 0) [] wideKernel).inBounds = false := by
  refine ⟨by decide, by decide, by decide, by decide, by decide⟩

end Collector
